import Mathlib

/-!
# crc16: CRC-16/BUYPASS checker and patcher for firmware image headers

A shallow embedding of `src/crc16/main.c`.

* Bytes (`uint8_t`) are natural numbers below 256; a buffer is a `List Nat`.
* `uint16_t` values are natural numbers, truncated with `% 65536` wherever the
  C code stores into a `uint16_t`.
* Every read or write through a pointer is bounds-checked against the buffer:
  an access outside the buffer yields `none`.
* The C library calls of `main` (`fopen`, `malloc`, `fread`, `fwrite`) are
  parameters of the run, collected in `Env`; what `main` prints is the list of
  `Msg` values of the result.
-/

set_option maxRecDepth 100000

namespace Crc16

/-! ## Data model -/

/-- Well-formed buffer: every element is a `uint8_t` value. -/
def IsBytes (buf : List Nat) : Prop := ∀ b ∈ buf, b < 256

instance (buf : List Nat) : Decidable (IsBytes buf) := by
  unfold IsBytes; infer_instance

/-- The struct `img_hdr_t` (main.c lines 11-21): four `uint16_t` fields followed by
two arrays of four bytes. -/
structure img_hdr_t where
  crc0 : Nat
  crc1 : Nat
  ver : Nat
  len : Nat
  uid : List Nat
  res : List Nat
  deriving DecidableEq, Repr

/-- The value of `sizeof(img_hdr_t)`: 4 * 2 + 4 + 4 bytes, no padding. -/
def sizeof_img_hdr_t : Nat := 16

/-! ## CRC16_BUYPASS (main.c lines 27-39) -/

/-- One pass of the inner loop body (lines 34-35):
`if (crc & 0x8000) crc = (crc<<1) ^ 0x8005; else crc <<= 1;`
with the result stored back into the `uint16_t` variable `crc`. -/
def crcRound (crc : Nat) : Nat :=
  if crc &&& 0x8000 ≠ 0 then ((crc <<< 1) ^^^ 0x8005) % 65536
  else (crc <<< 1) % 65536

/-- The inner loop `for (i=0; i<8; i++)` (line 33); the first argument is the
number of passes still to run. -/
def crcInner : Nat → Nat → Nat
  | 0, crc => crc
  | n + 1, crc => crcInner n (crcRound crc)

/-- The body of the outer loop for one byte `b = *data` (lines 32-36):
`crc ^= (uint16_t)b << 8;` followed by the eight inner passes. -/
def crcByte (crc b : Nat) : Nat :=
  crcInner 8 ((crc ^^^ (b <<< 8)) % 65536)

/-- The outer loop `for (j=len; j>0; j--)` (line 31): `data` is the index in `mem`
the pointer stands at, `j` the number of bytes still to read. A read outside
`mem` gives `none`. -/
def crcLoop (mem : List Nat) : Nat → Nat → Nat → Option Nat
  | _, 0, crc => some crc
  | data, j + 1, crc =>
    match mem[data]? with
    | none => none
    | some b => crcLoop mem (data + 1) j (crcByte crc b)

/-- The function `CRC16_BUYPASS(data, len)`, the pointer `data` given as an index
into the buffer `mem` it points into: `crc` starts at `0x0000`. -/
def CRC16_BUYPASS (mem : List Nat) (data len : Nat) : Option Nat :=
  crcLoop mem data len 0x0000

/-! ## main (main.c lines 42-136) -/

/-- The lines `main` prints, one constructor per `printf` call, with the values
printed. -/
inductive Msg where
  | usage
  | errOpenInput
  | errTooSmall
  | errOutOfMemory
  | errRead
  | header (hdr : img_hdr_t)
  | warnSmaller
  | warnMismatch
  | fileLength (words : Nat)
  | oldCrc (crc : Nat)
  | newCrc (crc : Nat)
  | failCrc
  | failLen
  | ok
  | errOpenOutput
  | errWrite
  deriving DecidableEq, Repr

/-- What the C library answers during one run of `main`.
`input` is the content of the file `argv[1]`, `none` when `fopen` fails;
`mallocOk` says that `malloc` returns a buffer; `freadFull` that `fread` returns
`len`; `fopenOut` that `fopen(argv[2], "wb")` succeeds; `fwriteFull` that `fwrite`
returns `len`. -/
structure Env where
  input : Option (List Nat)
  mallocOk : Bool
  freadFull : Bool
  fopenOut : Bool
  fwriteFull : Bool
  deriving DecidableEq, Repr

/-- The observable result of one run: the value `main` returns, the lines printed
in order, and the bytes handed to `fwrite` when `fwrite` wrote all of them. -/
structure Result where
  status : Int
  out : List Msg
  written : Option (List Nat)
  deriving DecidableEq, Repr

/-- A `uint16_t` field of the header overlay at byte offset `off` of `buf`, on a
little-endian host: low byte first. -/
def load16 (buf : List Nat) (off : Nat) : Option Nat :=
  match buf[off]?, buf[off + 1]? with
  | some lo, some hi => some (lo + 256 * hi)
  | _, _ => none

/-- The four bytes of an array field of the header overlay at byte offset `off`. -/
def load4 (buf : List Nat) (off : Nat) : Option (List Nat) :=
  match buf[off]?, buf[off + 1]?, buf[off + 2]?, buf[off + 3]? with
  | some a, some b, some c, some d => some [a, b, c, d]
  | _, _, _, _ => none

/-- The overlay `img_hdr_t *imgHdr = (img_hdr_t*) buf` (line 82) read field by
field, at the offsets the struct layout gives: 0, 2, 4, 6, 8, 12. -/
def imgHdr (buf : List Nat) : Option img_hdr_t :=
  match load16 buf 0, load16 buf 2, load16 buf 4, load16 buf 6, load4 buf 8, load4 buf 12 with
  | some crc0, some crc1, some ver, some len, some uid, some res =>
    some ⟨crc0, crc1, ver, len, uid, res⟩
  | _, _, _, _, _, _ => none

/-- The length warning (lines 92-96): `hdrLen` is `imgHdr->len`, `len` the file size. -/
def lengthWarning (hdrLen len : Nat) : List Msg :=
  if hdrLen > len / 4 then [Msg.warnSmaller]
  else if hdrLen ≠ len / 4 then [Msg.warnMismatch]
  else []

/-- The expression printed as the old CRC (line 101): `(uint16_t)(buf[1])<<8 | buf[0]`. -/
def oldCrcOf (buf : List Nat) : Option Nat :=
  match buf[0]?, buf[1]? with
  | some b0, some b1 => some ((b1 <<< 8) ||| b0)
  | _, _ => none

/-- The verification block (lines 105-112), entered when `argc < 3`: the lines it
prints, and `some (-1)` when it returns from `main`. -/
def verify (crc crc0 len hdrLen : Nat) : List Msg × Option Int :=
  if crc ≠ crc0 then ([Msg.failCrc], some (-1))
  else if len / 4 ≠ hdrLen then ([Msg.failLen], some (-1))
  else ([Msg.ok], none)

/-- A byte store `buf[i] = v` through the buffer pointer; `none` outside the buffer. -/
def store (buf : List Nat) (i v : Nat) : Option (List Nat) :=
  if i < buf.length then some (buf.set i v) else none

/-- The patch (lines 122-123): `buf[0] = crc & 0xff; buf[1] = crc>>8 & 0xff;`. -/
def patch (buf : List Nat) (crc : Nat) : Option (List Nat) :=
  match store buf 0 (crc &&& 0xff) with
  | none => none
  | some buf1 => store buf1 1 ((crc >>> 8) &&& 0xff)

/-- The output block (lines 116-132), entered when `argc == 3`. `out` holds the
lines printed before it. -/
def writeOutput (env : Env) (buf : List Nat) (crc : Nat) (out : List Msg) : Option Result :=
  if !env.fopenOut then some ⟨-1, out ++ [Msg.errOpenOutput], none⟩
  else
    match patch buf crc with
    | none => none
    | some buf2 =>
      if !env.fwriteFull then some ⟨-1, out ++ [Msg.errWrite], none⟩
      else some ⟨0, out, some buf2⟩

/-- The part of `main` after the file is in `buf` (lines 82-135); `len` is the
file size. -/
def process (argc : Nat) (env : Env) (buf : List Nat) (len : Nat) : Option Result :=
  match imgHdr buf with
  | none => none
  | some hdr =>
    let out1 := [Msg.header hdr] ++ lengthWarning hdr.len len
    match CRC16_BUYPASS buf 4 (len - 4), oldCrcOf buf with
    | some crc, some old =>
      let out2 := out1 ++ [Msg.fileLength ((len % 4294967296) / 4), Msg.oldCrc old, Msg.newCrc crc]
      let v := if argc < 3 then verify crc hdr.crc0 len hdr.len else ([], none)
      match v.2 with
      | some st => some ⟨st, out2 ++ v.1, none⟩
      | none =>
        if argc = 3 then writeOutput env buf crc (out2 ++ v.1)
        else some ⟨0, out2 ++ v.1, none⟩
    | _, _ => none

/-- The function `main(argc, argv)`: `none` stands for an access outside the buffer,
`some r` for a run that returns, with what it returned, printed and wrote. -/
def main (argc : Nat) (env : Env) : Option Result :=
  if argc < 2 ∨ argc > 4 then some ⟨0, [Msg.usage], none⟩
  else
    match env.input with
    | none => some ⟨-1, [Msg.errOpenInput], none⟩
    | some file =>
      let len := file.length
      if len < sizeof_img_hdr_t then some ⟨-1, [Msg.errTooSmall], none⟩
      else if !env.mallocOk then some ⟨-1, [Msg.errOutOfMemory], none⟩
      else if !env.freadFull then some ⟨-1, [Msg.errRead], none⟩
      else process argc env file len

/-! ## The mathematical CRC, in the words of the specification -/

/-- The message as one number, read most-significant-bit first: the first byte is
the most significant, so bit `i` of the number is the coefficient of `x^i` of the
message polynomial `M(x)`. -/
def msgNat (data : List Nat) : Nat := data.foldl (fun acc b => acc * 256 + b) 0

/-- The polynomial `p` over GF(2) has the bits of `n` as its coefficients: the
coefficient of `x^i` is bit `i` of `n`. -/
def IsBitsPoly (n : Nat) (p : Polynomial (ZMod 2)) : Prop :=
  ∀ i : Nat, p.coeff i = if n.testBit i then 1 else 0

/-- The byte list with bit `k` of the byte at index `i` flipped. -/
def flipBit (data : List Nat) (i k : Nat) : List Nat :=
  data.set i (data.getD i 0 ^^^ (1 <<< k))

/-! ## Proof devices -/

/-- The bytes of a list folded through the loop body, first byte first: what the
outer loop computes when all its reads are inside the buffer. -/
def crcFold (crc : Nat) (l : List Nat) : Nat := l.foldl crcByte crc

/-- The header fields at their byte offsets, for a buffer of at least 16 bytes. -/
def hdrAt (buf : List Nat) : img_hdr_t :=
  ⟨buf.getD 0 0 + 256 * buf.getD 1 0, buf.getD 2 0 + 256 * buf.getD 3 0,
   buf.getD 4 0 + 256 * buf.getD 5 0, buf.getD 6 0 + 256 * buf.getD 7 0,
   [buf.getD 8 0, buf.getD 9 0, buf.getD 10 0, buf.getD 11 0],
   [buf.getD 12 0, buf.getD 13 0, buf.getD 14 0, buf.getD 15 0]⟩

/-- The verdict lines among the lines a run printed: `Fail: crc do not match.`,
`Fail: len do not match.` and `OK.`. -/
def verdict (r : Result) : List Msg :=
  r.out.filter (fun m => m = Msg.failCrc ∨ m = Msg.failLen ∨ m = Msg.ok)

/-- The lines printed up to line 102, for a buffer of at least 16 bytes. -/
def report (buf : List Nat) : List Msg :=
  [Msg.header (hdrAt buf)] ++ lengthWarning (hdrAt buf).len buf.length ++
    [Msg.fileLength ((buf.length % 4294967296) / 4),
     Msg.oldCrc ((buf.getD 1 0 <<< 8) ||| buf.getD 0 0), Msg.newCrc (crcFold 0 (buf.drop 4))]

/-! ## Basic facts about the checksum loop -/

theorem crcRound_lt (c : Nat) : crcRound c < 65536 := by
  unfold crcRound
  split <;> exact Nat.mod_lt _ (by norm_num)

theorem crcInner_lt : ∀ (n c : Nat), c < 65536 → crcInner n c < 65536
  | 0, _, h => h
  | n + 1, c, _ => crcInner_lt n (crcRound c) (crcRound_lt c)

theorem crcByte_lt (c b : Nat) : crcByte c b < 65536 :=
  crcInner_lt 8 _ (Nat.mod_lt _ (by norm_num))

theorem crcFold_lt (l : List Nat) : ∀ c, c < 65536 → crcFold c l < 65536 := by
  induction l with
  | nil => intro c h; exact h
  | cons b t ih => intro c _; exact ih _ (crcByte_lt c b)

theorem crcLoop_eq (mem : List Nat) :
    ∀ (j data crc : Nat), data + j ≤ mem.length →
      crcLoop mem data j crc = some (crcFold crc ((mem.drop data).take j)) := by
  intro j
  induction j with
  | zero => intro data crc _; simp [crcLoop, crcFold]
  | succ j ih =>
    intro data crc h
    have hd : data < mem.length := by omega
    rw [crcLoop, List.getElem?_eq_getElem hd]
    simp only
    rw [ih (data + 1) _ (by omega), List.drop_eq_getElem_cons hd, List.take_succ_cons]
    rfl

theorem CRC16_BUYPASS_whole (data : List Nat) :
    CRC16_BUYPASS data 0 data.length = some (crcFold 0 data) := by
  unfold CRC16_BUYPASS
  rw [crcLoop_eq data data.length 0 0 (by omega)]
  simp

theorem CRC16_BUYPASS_from (buf : List Nat) (p : Nat) (h : p ≤ buf.length) :
    CRC16_BUYPASS buf p (buf.length - p) = some (crcFold 0 (buf.drop p)) := by
  unfold CRC16_BUYPASS
  rw [crcLoop_eq buf (buf.length - p) p 0 (by omega)]
  congr 2
  apply List.take_of_length_le
  simp

theorem load16_eq (buf : List Nat) (off : Nat) (h : off + 1 < buf.length) :
    load16 buf off = some (buf.getD off 0 + 256 * buf.getD (off + 1) 0) := by
  unfold load16
  rw [List.getElem?_eq_getElem (by omega : off < buf.length), List.getElem?_eq_getElem h]
  simp [List.getD_eq_getElem?_getD, List.getElem?_eq_getElem h,
    List.getElem?_eq_getElem (by omega : off < buf.length)]

theorem load4_eq (buf : List Nat) (off : Nat) (h : off + 3 < buf.length) :
    load4 buf off = some [buf.getD off 0, buf.getD (off + 1) 0, buf.getD (off + 2) 0,
      buf.getD (off + 3) 0] := by
  unfold load4
  rw [List.getElem?_eq_getElem (by omega : off < buf.length),
    List.getElem?_eq_getElem (by omega : off + 1 < buf.length),
    List.getElem?_eq_getElem (by omega : off + 2 < buf.length),
    List.getElem?_eq_getElem h]
  simp [List.getD_eq_getElem?_getD, List.getElem?_eq_getElem h,
    List.getElem?_eq_getElem (by omega : off < buf.length),
    List.getElem?_eq_getElem (by omega : off + 1 < buf.length),
    List.getElem?_eq_getElem (by omega : off + 2 < buf.length)]

/-! ## The header overlay and the run of `main` -/

theorem imgHdr_eq (buf : List Nat) (h : 16 ≤ buf.length) : imgHdr buf = some (hdrAt buf) := by
  unfold imgHdr
  rw [load16_eq buf 0 (by omega), load16_eq buf 2 (by omega), load16_eq buf 4 (by omega),
    load16_eq buf 6 (by omega), load4_eq buf 8 (by omega), load4_eq buf 12 (by omega)]
  rfl

theorem shl8_or_eq (b0 b1 : Nat) (h : b0 < 256) : (b1 <<< 8) ||| b0 = b0 + 256 * b1 := by
  rw [Nat.shiftLeft_eq, Nat.mul_comm, Nat.add_comm]
  exact (Nat.mul_add_lt_is_or (i := 8) (by simpa using h) b1).symm

theorem oldCrcOf_eq (buf : List Nat) (h : 2 ≤ buf.length) :
    oldCrcOf buf = some ((buf.getD 1 0 <<< 8) ||| buf.getD 0 0) := by
  unfold oldCrcOf
  rw [List.getElem?_eq_getElem (by omega : 0 < buf.length),
    List.getElem?_eq_getElem (by omega : 1 < buf.length)]
  simp [List.getD_eq_getElem?_getD, List.getElem?_eq_getElem (by omega : 0 < buf.length),
    List.getElem?_eq_getElem (by omega : 1 < buf.length)]

theorem getD_lt_of_isBytes (buf : List Nat) (hb : IsBytes buf) (i : Nat) : buf.getD i 0 < 256 := by
  rw [List.getD_eq_getElem?_getD]
  by_cases h : i < buf.length
  · rw [List.getElem?_eq_getElem h]
    exact hb _ (List.getElem_mem _)
  · rw [List.getElem?_eq_none (by omega)]
    simp

theorem oldCrcOf_eq_crc0 (buf : List Nat) (h : 2 ≤ buf.length) (hb : IsBytes buf) :
    oldCrcOf buf = some (hdrAt buf).crc0 := by
  rw [oldCrcOf_eq buf h, shl8_or_eq _ _ (getD_lt_of_isBytes buf hb 0)]
  rfl

/-- `process` on a buffer of at least 16 bytes, all reads resolved. -/
theorem process_eq (argc : Nat) (env : Env) (buf : List Nat) (h : 16 ≤ buf.length) :
    process argc env buf buf.length =
      (let hdr := hdrAt buf
       let crc := crcFold 0 (buf.drop 4)
       let out2 := [Msg.header hdr] ++ lengthWarning hdr.len buf.length ++
         [Msg.fileLength ((buf.length % 4294967296) / 4),
          Msg.oldCrc ((buf.getD 1 0 <<< 8) ||| buf.getD 0 0), Msg.newCrc crc]
       let v := if argc < 3 then verify crc hdr.crc0 buf.length hdr.len else ([], none)
       match v.2 with
       | some st => some ⟨st, out2 ++ v.1, none⟩
       | none =>
         if argc = 3 then writeOutput env buf crc (out2 ++ v.1)
         else some ⟨0, out2 ++ v.1, none⟩) := by
  unfold process
  rw [imgHdr_eq buf h, CRC16_BUYPASS_from buf 4 (by omega), oldCrcOf_eq buf (by omega)]

theorem main_eq_process (argc : Nat) (env : Env) (file : List Nat)
    (ha : 2 ≤ argc ∧ argc ≤ 4) (hin : env.input = some file) (h : 16 ≤ file.length)
    (hm : env.mallocOk = true) (hr : env.freadFull = true) :
    main argc env = process argc env file file.length := by
  unfold main
  rw [if_neg (by omega), hin]
  simp only [sizeof_img_hdr_t, hm, hr]
  rw [if_neg (by omega)]
  simp

/-! ## The patch -/

theorem patch_eq (buf : List Nat) (c : Nat) (h : 2 ≤ buf.length) :
    patch buf c = some ((buf.set 0 (c % 256)).set 1 (c / 256 % 256)) := by
  have h1 : c &&& 0xff = c % 256 := Nat.and_pow_two_sub_one_eq_mod c 8
  have h2 : (c >>> 8) &&& 0xff = c / 256 % 256 := by
    rw [Nat.shiftRight_eq_div_pow]
    exact Nat.and_pow_two_sub_one_eq_mod _ 8
  unfold patch store
  rw [if_pos (by omega)]
  simp only [List.length_set]
  rw [if_pos (by omega), h1, h2]

theorem patch_length (buf buf2 : List Nat) (c : Nat) (h : patch buf c = some buf2) :
    buf2.length = buf.length := by
  unfold patch store at h
  split at h
  · cases h
  · rename_i b1 hb1
    split at hb1
    · cases hb1
      split at h
      · cases h; simp
      · cases h
    · cases hb1

theorem patch_drop (buf : List Nat) (c n : Nat) (hn : 2 ≤ n) :
    (((buf.set 0 (c % 256)).set 1 (c / 256 % 256))).drop n = buf.drop n := by
  rw [List.drop_set_of_lt _ _ (by omega), List.drop_set_of_lt _ _ (by omega)]

theorem patch_getD (buf : List Nat) (c i : Nat) (hi : 2 ≤ i) :
    (((buf.set 0 (c % 256)).set 1 (c / 256 % 256))).getD i 0 = buf.getD i 0 := by
  simp only [List.getD_eq_getElem?_getD]
  rw [List.getElem?_set_ne (by omega), List.getElem?_set_ne (by omega)]

theorem patch_getD_zero (buf : List Nat) (c : Nat) (h : 2 ≤ buf.length) :
    (((buf.set 0 (c % 256)).set 1 (c / 256 % 256))).getD 0 0 = c % 256 := by
  simp only [List.getD_eq_getElem?_getD]
  rw [List.getElem?_set_ne (by omega), List.getElem?_set_self (by omega)]
  rfl

theorem patch_getD_one (buf : List Nat) (c : Nat) (h : 2 ≤ buf.length) :
    (((buf.set 0 (c % 256)).set 1 (c / 256 % 256))).getD 1 0 = c / 256 % 256 := by
  simp only [List.getD_eq_getElem?_getD]
  rw [List.getElem?_set_self (by simp; omega)]
  rfl

theorem le16_split (c : Nat) (h : c < 65536) : c % 256 + 256 * (c / 256 % 256) = c := by
  omega

/-! ## The three modes of `main` -/

theorem lengthWarning_cases (hdrLen len : Nat) :
    lengthWarning hdrLen len = [] ∨ lengthWarning hdrLen len = [Msg.warnSmaller] ∨
      lengthWarning hdrLen len = [Msg.warnMismatch] := by
  unfold lengthWarning
  split
  · exact Or.inr (Or.inl rfl)
  · split
    · exact Or.inr (Or.inr rfl)
    · exact Or.inl rfl

theorem report_filter (buf : List Nat) :
    (report buf).filter (fun m => m = Msg.failCrc ∨ m = Msg.failLen ∨ m = Msg.ok) = [] := by
  unfold report
  rcases lengthWarning_cases (hdrAt buf).len buf.length with h | h | h <;> rw [h] <;> simp

theorem verify_cases (crc crc0 len hdrLen : Nat) :
    (crc ≠ crc0 ∧ verify crc crc0 len hdrLen = ([Msg.failCrc], some (-1))) ∨
    (crc = crc0 ∧ len / 4 ≠ hdrLen ∧ verify crc crc0 len hdrLen = ([Msg.failLen], some (-1))) ∨
    (crc = crc0 ∧ len / 4 = hdrLen ∧ verify crc crc0 len hdrLen = ([Msg.ok], none)) := by
  unfold verify
  by_cases h1 : crc = crc0
  · by_cases h2 : len / 4 = hdrLen
    · exact Or.inr (Or.inr ⟨h1, h2, by simp [h1, h2]⟩)
    · exact Or.inr (Or.inl ⟨h1, h2, by simp [h1, h2]⟩)
  · exact Or.inl ⟨h1, by simp [h1]⟩

/-- Verify-only mode (`argc = 2`) on a file of at least 16 bytes that was read:
the run returns, prints the report followed by the lines of `verify`, and returns
`-1` when `verify` does and `0` otherwise. -/
theorem main_verify_eq (env : Env) (file : List Nat)
    (hin : env.input = some file) (h : 16 ≤ file.length)
    (hm : env.mallocOk = true) (hr : env.freadFull = true) :
    main 2 env =
      some ⟨((verify (crcFold 0 (file.drop 4)) (hdrAt file).crc0 file.length (hdrAt file).len).2).getD 0,
        report file ++ (verify (crcFold 0 (file.drop 4)) (hdrAt file).crc0 file.length (hdrAt file).len).1,
        none⟩ := by
  rw [main_eq_process 2 env file (by omega) hin h hm hr, process_eq 2 env file h]
  rcases verify_cases (crcFold 0 (file.drop 4)) (hdrAt file).crc0 file.length (hdrAt file).len
    with ⟨_, hv⟩ | ⟨_, _, hv⟩ | ⟨_, _, hv⟩ <;> simp [hv, report]

/-- Patch mode (`argc = 3`) on a file of at least 16 bytes that was read. -/
theorem main_patch_eq (env : Env) (file : List Nat)
    (hin : env.input = some file) (h : 16 ≤ file.length)
    (hm : env.mallocOk = true) (hr : env.freadFull = true) :
    main 3 env = writeOutput env file (crcFold 0 (file.drop 4)) (report file) := by
  rw [main_eq_process 3 env file (by omega) hin h hm hr, process_eq 3 env file h]
  simp [report]

/-- With four arguments neither the verification block nor the output block runs. -/
theorem main_four_eq (env : Env) (file : List Nat)
    (hin : env.input = some file) (h : 16 ≤ file.length)
    (hm : env.mallocOk = true) (hr : env.freadFull = true) :
    main 4 env = some ⟨0, report file, none⟩ := by
  rw [main_eq_process 4 env file (by omega) hin h hm hr, process_eq 4 env file h]
  simp [report]

theorem writeOutput_cases (env : Env) (buf : List Nat) (c : Nat) (out : List Msg)
    (h : 2 ≤ buf.length) :
    writeOutput env buf c out = some ⟨-1, out ++ [Msg.errOpenOutput], none⟩ ∨
    writeOutput env buf c out = some ⟨-1, out ++ [Msg.errWrite], none⟩ ∨
    writeOutput env buf c out = some ⟨0, out, some ((buf.set 0 (c % 256)).set 1 (c / 256 % 256))⟩ := by
  unfold writeOutput
  rw [patch_eq buf c h]
  cases env.fopenOut <;> cases env.fwriteFull <;> simp

theorem writeOutput_ok (env : Env) (buf : List Nat) (c : Nat) (out : List Msg)
    (h : 2 ≤ buf.length) (ho : env.fopenOut = true) (hw : env.fwriteFull = true) :
    writeOutput env buf c out =
      some ⟨0, out, some ((buf.set 0 (c % 256)).set 1 (c / 256 % 256))⟩ := by
  unfold writeOutput
  rw [patch_eq buf c h]
  simp [ho, hw]

theorem verdict_report_append (st : Int) (buf : List Nat) (l : List Msg) (w : Option (List Nat)) :
    verdict ⟨st, report buf ++ l, w⟩ =
      l.filter (fun m => m = Msg.failCrc ∨ m = Msg.failLen ∨ m = Msg.ok) := by
  unfold verdict
  simp only [List.filter_append, report_filter, List.nil_append]

/-- Verify-only mode on a file of at least 16 bytes that was read: the run returns,
and its status and verdict line follow the two comparisons of `verify`. -/
theorem main_verify_verdict (env : Env) (file : List Nat)
    (hin : env.input = some file) (h : 16 ≤ file.length)
    (hm : env.mallocOk = true) (hr : env.freadFull = true) :
    ∃ r, main 2 env = some r ∧ r.written = none ∧
      (crcFold 0 (file.drop 4) ≠ (hdrAt file).crc0 →
        r.status = -1 ∧ verdict r = [Msg.failCrc]) ∧
      (crcFold 0 (file.drop 4) = (hdrAt file).crc0 → file.length / 4 ≠ (hdrAt file).len →
        r.status = -1 ∧ verdict r = [Msg.failLen]) ∧
      (crcFold 0 (file.drop 4) = (hdrAt file).crc0 → file.length / 4 = (hdrAt file).len →
        r.status = 0 ∧ verdict r = [Msg.ok]) := by
  refine ⟨_, main_verify_eq env file hin h hm hr, rfl, ?_⟩
  rw [verdict_report_append]
  rcases verify_cases (crcFold 0 (file.drop 4)) (hdrAt file).crc0 file.length (hdrAt file).len
    with ⟨h1, hv⟩ | ⟨h1, h2, hv⟩ | ⟨h1, h2, hv⟩ <;> rw [hv]
  · exact ⟨fun _ => ⟨rfl, by simp⟩, fun e => absurd e h1, fun e => absurd e h1⟩
  · exact ⟨fun e => absurd h1 e, fun _ _ => ⟨rfl, by simp⟩, fun _ e => absurd e h2⟩
  · exact ⟨fun e => absurd h1 e, fun _ e => absurd h2 e, fun _ _ => ⟨rfl, by simp⟩⟩

/-- A run of `main` on a file of at least 16 bytes that was read returns; it prints
the report first, and after it only a verdict line or an output-file error. -/
theorem main_out (argc : Nat) (env : Env) (file : List Nat)
    (ha : 2 ≤ argc ∧ argc ≤ 4) (hin : env.input = some file) (h : 16 ≤ file.length)
    (hm : env.mallocOk = true) (hr : env.freadFull = true) :
    ∃ r rest, main argc env = some r ∧ r.out = report file ++ rest ∧
      ∀ m ∈ rest, m = Msg.failCrc ∨ m = Msg.failLen ∨ m = Msg.ok ∨
        m = Msg.errOpenOutput ∨ m = Msg.errWrite := by
  have hcases : argc = 2 ∨ argc = 3 ∨ argc = 4 := by omega
  rcases hcases with rfl | rfl | rfl
  · refine ⟨_, _, main_verify_eq env file hin h hm hr, rfl, ?_⟩
    intro m hmem
    rcases verify_cases (crcFold 0 (file.drop 4)) (hdrAt file).crc0 file.length (hdrAt file).len
      with ⟨_, hv⟩ | ⟨_, _, hv⟩ | ⟨_, _, hv⟩ <;> rw [hv] at hmem <;> simp at hmem <;> simp [hmem]
  · rw [main_patch_eq env file hin h hm hr]
    rcases writeOutput_cases env file (crcFold 0 (file.drop 4)) (report file) (by omega)
      with hw | hw | hw
    · exact ⟨_, [Msg.errOpenOutput], hw, rfl, by simp⟩
    · exact ⟨_, [Msg.errWrite], hw, rfl, by simp⟩
    · exact ⟨_, [], hw, by simp, by simp⟩
  · exact ⟨_, [], main_four_eq env file hin h hm hr, by simp, by simp⟩

theorem newCrc_mem_report (buf : List Nat) : Msg.newCrc (crcFold 0 (buf.drop 4)) ∈ report buf := by
  simp [report]

theorem oldCrc_mem_report (buf : List Nat) :
    Msg.oldCrc ((buf.getD 1 0 <<< 8) ||| buf.getD 0 0) ∈ report buf := by
  simp [report]

theorem lengthWarning_sub_report (buf : List Nat) :
    ∀ m ∈ lengthWarning (hdrAt buf).len buf.length, m ∈ report buf := by
  intro m hm
  simp [report, hm]

theorem lengthWarning_nil_iff (hdrLen len : Nat) :
    lengthWarning hdrLen len = [] ↔ hdrLen = len / 4 := by
  unfold lengthWarning
  split
  · simp; omega
  · split
    · simp; assumption
    · simp; omega

theorem lengthWarning_smaller_iff (hdrLen len : Nat) :
    lengthWarning hdrLen len = [Msg.warnSmaller] ↔ hdrLen > len / 4 := by
  unfold lengthWarning
  split
  · simp; assumption
  · split
    · simp; omega
    · simp; omega

theorem lengthWarning_mismatch_iff (hdrLen len : Nat) :
    lengthWarning hdrLen len = [Msg.warnMismatch] ↔ hdrLen < len / 4 := by
  unfold lengthWarning
  split
  · simp; omega
  · split
    · simp; omega
    · simp; omega

theorem warn_mem_report_iff (buf : List Nat) :
    (Msg.warnSmaller ∈ report buf ∨ Msg.warnMismatch ∈ report buf) ↔
      lengthWarning (hdrAt buf).len buf.length ≠ [] := by
  unfold report
  rcases lengthWarning_cases (hdrAt buf).len buf.length with h | h | h <;> rw [h] <;> simp

/-! ## Bits as polynomials over GF(2) -/

open Polynomial

theorem isBitsPoly_congr {n : Nat} {p q : (ZMod 2)[X]} (h : IsBitsPoly n p) (e : p = q) :
    IsBitsPoly n q := e ▸ h

theorem isBitsPoly_unique {n : Nat} {p q : (ZMod 2)[X]} (hp : IsBitsPoly n p)
    (hq : IsBitsPoly n q) : p = q := by
  ext i
  rw [hp i, hq i]

theorem isBitsPoly_zero : IsBitsPoly 0 0 := by
  intro i
  simp

theorem isBitsPoly_one : IsBitsPoly 1 1 := by
  intro i
  rw [Polynomial.coeff_one]
  by_cases h : i = 0
  · subst h; simp
  · have : Nat.testBit 1 i = false := by
      have := @Nat.testBit_two_pow 0 i
      simp only [pow_zero] at this
      rw [this]
      simp; omega
    rw [this]
    simp [h]

theorem isBitsPoly_xor {a b : Nat} {p q : (ZMod 2)[X]} (hp : IsBitsPoly a p)
    (hq : IsBitsPoly b q) : IsBitsPoly (a ^^^ b) (p + q) := by
  intro i
  rw [Polynomial.coeff_add, hp i, hq i, Nat.testBit_xor]
  cases a.testBit i <;> cases b.testBit i <;> simp
  exact CharTwo.add_self_eq_zero (1 : ZMod 2)

theorem isBitsPoly_shiftLeft {a : Nat} {p : (ZMod 2)[X]} (hp : IsBitsPoly a p) (k : Nat) :
    IsBitsPoly (a <<< k) (p * X ^ k) := by
  intro i
  rw [Polynomial.coeff_mul_X_pow', Nat.testBit_shiftLeft]
  by_cases h : k ≤ i
  · simp [h, hp (i - k)]
  · simp [h]

theorem isBitsPoly_exists (n : Nat) : ∃ p : (ZMod 2)[X], IsBitsPoly n p := by
  induction n using Nat.strong_induction_on with
  | _ n ih =>
    by_cases h0 : n = 0
    · subst h0; exact ⟨0, isBitsPoly_zero⟩
    · obtain ⟨q, hq⟩ := ih (n / 2) (by omega)
      have hbit : ∃ r : (ZMod 2)[X], IsBitsPoly (n % 2) r := by
        rcases Nat.mod_two_eq_zero_or_one n with h | h <;> rw [h]
        · exact ⟨0, isBitsPoly_zero⟩
        · exact ⟨1, isBitsPoly_one⟩
      obtain ⟨r, hr⟩ := hbit
      refine ⟨q * X ^ 1 + r, ?_⟩
      have hn : n = ((n / 2) <<< 1) ^^^ (n % 2) := by
        apply Nat.eq_of_testBit_eq
        intro i
        rw [Nat.testBit_xor, Nat.testBit_shiftLeft]
        cases i with
        | zero =>
          simp [Nat.testBit_zero]
        | succ j =>
          have : (n % 2).testBit (j + 1) = false :=
            Nat.testBit_eq_false_of_lt (lt_of_lt_of_le (Nat.mod_lt n (by norm_num))
              (by calc 2 = 2 ^ 1 := by norm_num
                     _ ≤ 2 ^ (j + 1) := Nat.pow_le_pow_right (by norm_num) (by omega)))
          simp [this, Nat.testBit_succ]
      have := isBitsPoly_xor (isBitsPoly_shiftLeft hq 1) hr
      rw [← hn] at this
      exact this

theorem isBitsPoly_poly : IsBitsPoly 0x18005 (X ^ 16 + X ^ 15 + X ^ 2 + 1 : (ZMod 2)[X]) := by
  have h := isBitsPoly_xor (isBitsPoly_xor (isBitsPoly_xor (isBitsPoly_shiftLeft isBitsPoly_one 16)
    (isBitsPoly_shiftLeft isBitsPoly_one 15)) (isBitsPoly_shiftLeft isBitsPoly_one 2))
    isBitsPoly_one
  have e : (1 <<< 16) ^^^ (1 <<< 15) ^^^ (1 <<< 2) ^^^ 1 = 0x18005 := by decide
  rw [e] at h
  exact isBitsPoly_congr h (by ring)

/-! ## The loop as polynomial arithmetic modulo the generator -/

theorem testBit_high {c i : Nat} (hc : c < 65536) (hi : 16 ≤ i) : c.testBit i = false :=
  Nat.testBit_eq_false_of_lt (lt_of_lt_of_le hc
    (by calc 65536 = 2 ^ 16 := by norm_num
           _ ≤ 2 ^ i := Nat.pow_le_pow_right (by norm_num) hi))

theorem and_8000_ne_zero_iff (c : Nat) : c &&& 0x8000 ≠ 0 ↔ c.testBit 15 = true := by
  constructor
  · intro h
    by_contra hb
    apply h
    apply Nat.eq_of_testBit_eq
    intro i
    rw [Nat.testBit_and, Nat.zero_testBit]
    have h2 : (0x8000 : Nat) = 2 ^ 15 := by norm_num
    rw [h2, Nat.testBit_two_pow]
    by_cases hi : 15 = i
    · subst hi; simp at hb; simp [hb]
    · simp [hi]
  · intro h he
    have := congrArg (fun n => Nat.testBit n 15) he
    simp only [Nat.testBit_and, Nat.zero_testBit, h, Bool.true_and] at this
    revert this
    decide

theorem crcRound_of_high (c : Nat) (hc : c < 65536) (hb : c.testBit 15 = true) :
    crcRound c = (c <<< 1) ^^^ 0x18005 := by
  unfold crcRound
  rw [if_pos ((and_8000_ne_zero_iff c).2 hb)]
  apply Nat.eq_of_testBit_eq
  intro i
  have h2 : (65536 : Nat) = 2 ^ 16 := by norm_num
  have h3 : (0x18005 : Nat) = 2 ^ 16 + 0x8005 := by norm_num
  rw [h2, Nat.testBit_mod_two_pow, Nat.testBit_xor, Nat.testBit_xor, Nat.testBit_shiftLeft]
  by_cases hi : i < 16
  · rw [h3, Nat.testBit_two_pow_add_gt hi]
    simp [hi]
  · have hi2 : 16 ≤ i := by omega
    simp only [hi, decide_False, Bool.false_and]
    by_cases h16 : i = 16
    · subst h16
      simp [hb]
      decide
    · have e1 : c.testBit (i - 1) = false := testBit_high hc (by omega)
      have e2 : (0x18005 : Nat).testBit i = false :=
        Nat.testBit_eq_false_of_lt (lt_of_lt_of_le (by norm_num : 0x18005 < 2 ^ 17)
          (Nat.pow_le_pow_right (by norm_num) (by omega)))
      simp [e1, e2]

theorem crcRound_of_low (c : Nat) (hc : c < 65536) (hb : c.testBit 15 = false) :
    crcRound c = c <<< 1 := by
  unfold crcRound
  rw [if_neg (fun h => by rw [(and_8000_ne_zero_iff c).1 h] at hb; cases hb)]
  apply Nat.mod_eq_of_lt
  have : c < 32768 := by
    by_contra hge
    have : c.testBit 15 = true := by
      rw [Nat.testBit_to_div_mod]
      simp
      omega
    rw [this] at hb
    cases hb
  rw [Nat.shiftLeft_eq]
  omega

/-- One pass of the inner loop multiplies the polynomial of `crc` by `x`, modulo the
generator. -/
theorem crcRound_poly {c : Nat} {p : (ZMod 2)[X]} (hc : c < 65536) (hp : IsBitsPoly c p) :
    ∃ t : (ZMod 2)[X],
      IsBitsPoly (crcRound c) (X * p + t * (X ^ 16 + X ^ 15 + X ^ 2 + 1)) := by
  cases hb : c.testBit 15 with
  | true =>
    refine ⟨1, ?_⟩
    rw [crcRound_of_high c hc hb]
    exact isBitsPoly_congr (isBitsPoly_xor (isBitsPoly_shiftLeft hp 1) isBitsPoly_poly)
      (by ring)
  | false =>
    refine ⟨0, ?_⟩
    rw [crcRound_of_low c hc hb]
    exact isBitsPoly_congr (isBitsPoly_shiftLeft hp 1) (by ring)

theorem crcInner_poly : ∀ (n : Nat) {c : Nat} {p : (ZMod 2)[X]}, c < 65536 → IsBitsPoly c p →
    ∃ t : (ZMod 2)[X],
      IsBitsPoly (crcInner n c) (X ^ n * p + t * (X ^ 16 + X ^ 15 + X ^ 2 + 1))
  | 0, c, p, _, hp => ⟨0, isBitsPoly_congr hp (by simp [crcInner])⟩
  | n + 1, c, p, hc, hp => by
    obtain ⟨t1, h1⟩ := crcRound_poly hc hp
    obtain ⟨t2, h2⟩ := crcInner_poly n (crcRound_lt c) h1
    exact ⟨X ^ n * t1 + t2, isBitsPoly_congr h2 (by ring)⟩

theorem crcByte_poly {c b : Nat} {p q : (ZMod 2)[X]} (hc : c < 65536) (hb : b < 256)
    (hp : IsBitsPoly c p) (hq : IsBitsPoly b q) :
    ∃ t : (ZMod 2)[X],
      IsBitsPoly (crcByte c b) (X ^ 8 * (p + q * X ^ 8) + t * (X ^ 16 + X ^ 15 + X ^ 2 + 1)) := by
  unfold crcByte
  have hlt : c ^^^ (b <<< 8) < 65536 := by
    have h1 : c < 2 ^ 16 := by simpa using hc
    have h2 : b <<< 8 < 2 ^ 16 := by rw [Nat.shiftLeft_eq]; omega
    simpa using Nat.xor_lt_two_pow h1 h2
  rw [Nat.mod_eq_of_lt hlt]
  exact crcInner_poly 8 hlt (isBitsPoly_xor hp (isBitsPoly_shiftLeft hq 8))

theorem msg_step_poly {m b : Nat} {M q : (ZMod 2)[X]} (hb : b < 256)
    (hM : IsBitsPoly m M) (hq : IsBitsPoly b q) : IsBitsPoly (m * 256 + b) (M * X ^ 8 + q) := by
  have e : m * 256 + b = (m <<< 8) ^^^ b := by
    apply Nat.eq_of_testBit_eq
    intro i
    have h256 : (256 : Nat) = 2 ^ 8 := by norm_num
    rw [Nat.mul_comm, h256, Nat.testBit_mul_pow_two_add m (by simpa using hb) i,
      Nat.testBit_xor, Nat.testBit_shiftLeft]
    by_cases hi : i < 8
    · have h8 : ¬ 8 ≤ i := by omega
      simp [hi, h8]
    · have h8 : 8 ≤ i := by omega
      have : b.testBit i = false :=
        Nat.testBit_eq_false_of_lt (lt_of_lt_of_le hb
          (by calc 256 = 2 ^ 8 := by norm_num
                 _ ≤ 2 ^ i := Nat.pow_le_pow_right (by norm_num) (by omega)))
      simp [hi, h8, this]
  rw [e]
  exact isBitsPoly_xor (isBitsPoly_shiftLeft hM 8) hq

theorem crcFold_poly (data : List Nat) : ∀ (c m : Nat) (p M t : (ZMod 2)[X]), IsBytes data →
    c < 65536 → IsBitsPoly c p → IsBitsPoly m M →
    p = M * X ^ 16 + t * (X ^ 16 + X ^ 15 + X ^ 2 + 1) →
    ∃ p2 M2 t2 : (ZMod 2)[X], IsBitsPoly (crcFold c data) p2 ∧
      IsBitsPoly (data.foldl (fun acc b => acc * 256 + b) m) M2 ∧
      p2 = M2 * X ^ 16 + t2 * (X ^ 16 + X ^ 15 + X ^ 2 + 1) := by
  induction data with
  | nil =>
    intro c m p M t _ _ hp hM e
    exact ⟨p, M, t, hp, hM, e⟩
  | cons b rest ih =>
    intro c m p M t hb hc hp hM e
    have hb0 : b < 256 := hb b (List.mem_cons_self _ _)
    have hrest : IsBytes rest := fun x hx => hb x (List.mem_cons_of_mem _ hx)
    obtain ⟨q, hq⟩ := isBitsPoly_exists b
    obtain ⟨t1, h1⟩ := crcByte_poly hc hb0 hp hq
    exact ih (crcByte c b) (m * 256 + b) _ _ (X ^ 8 * t + t1) hrest (crcByte_lt c b) h1
      (msg_step_poly hb0 hM hq) (by rw [e]; ring)

theorem generator_monic : (X ^ 16 + X ^ 15 + X ^ 2 + 1 : (ZMod 2)[X]).Monic := by
  have : (X ^ 16 + X ^ 15 + X ^ 2 + 1 : (ZMod 2)[X]) = X ^ 16 + (X ^ 15 + X ^ 2 + 1) := by ring
  rw [this]
  apply Polynomial.monic_X_pow_add
  have h15 : (X ^ 15 + X ^ 2 + 1 : (ZMod 2)[X]).degree ≤ 15 := by compute_degree!
  exact lt_of_le_of_lt h15 (by norm_num)

theorem generator_degree : (X ^ 16 + X ^ 15 + X ^ 2 + 1 : (ZMod 2)[X]).degree = 16 := by
  compute_degree!

theorem isBitsPoly_degree_lt {c : Nat} {p : (ZMod 2)[X]} (hc : c < 65536) (hp : IsBitsPoly c p) :
    p.degree < 16 := by
  have := (Polynomial.degree_lt_iff_coeff_zero p 16).2 (by
    intro i hi
    rw [hp i, testBit_high hc hi]
    simp)
  exact_mod_cast this

theorem getElem?_eq_some_getD (buf : List Nat) (i : Nat) (h : i < buf.length) :
    buf[i]? = some (buf.getD i 0) := by
  rw [List.getD_eq_getElem?_getD, List.getElem?_eq_getElem h]
  rfl

/-- Every run of `main` returns, in one of these shapes. -/
theorem main_cases (argc : Nat) (env : Env) :
    main argc env = some ⟨0, [Msg.usage], none⟩ ∨
    (∃ m, (m = Msg.errOpenInput ∨ m = Msg.errTooSmall ∨ m = Msg.errOutOfMemory ∨
        m = Msg.errRead) ∧ main argc env = some ⟨-1, [m], none⟩) ∨
    (∃ file, env.input = some file ∧ 16 ≤ file.length ∧
      ((∃ m, (m = Msg.failCrc ∨ m = Msg.failLen ∨ m = Msg.errOpenOutput ∨ m = Msg.errWrite) ∧
          main argc env = some ⟨-1, report file ++ [m], none⟩) ∨
        main argc env = some ⟨0, report file ++ [Msg.ok], none⟩ ∨
        (∃ w, main argc env = some ⟨0, report file, w⟩))) := by
  by_cases hg : argc < 2 ∨ argc > 4
  · left
    unfold main
    rw [if_pos hg]
  · right
    have ha : 2 ≤ argc ∧ argc ≤ 4 := by omega
    cases hin : env.input with
    | none =>
      left
      refine ⟨Msg.errOpenInput, Or.inl rfl, ?_⟩
      unfold main
      rw [if_neg hg, hin]
    | some file =>
      by_cases hl : file.length < 16
      · left
        refine ⟨Msg.errTooSmall, Or.inr (Or.inl rfl), ?_⟩
        unfold main
        rw [if_neg hg, hin]
        simp [sizeof_img_hdr_t, hl]
      · cases hm : env.mallocOk with
        | false =>
          left
          refine ⟨Msg.errOutOfMemory, Or.inr (Or.inr (Or.inl rfl)), ?_⟩
          unfold main
          rw [if_neg hg, hin]
          simp [sizeof_img_hdr_t, hl, hm]
        | true =>
          cases hr : env.freadFull with
          | false =>
            left
            refine ⟨Msg.errRead, Or.inr (Or.inr (Or.inr rfl)), ?_⟩
            unfold main
            rw [if_neg hg, hin]
            simp [sizeof_img_hdr_t, hl, hm, hr]
          | true =>
            right
            have h16 : 16 ≤ file.length := by omega
            refine ⟨file, rfl, h16, ?_⟩
            have hcases : argc = 2 ∨ argc = 3 ∨ argc = 4 := by omega
            rcases hcases with rfl | rfl | rfl
            · rw [main_verify_eq env file hin h16 hm hr]
              rcases verify_cases (crcFold 0 (file.drop 4)) (hdrAt file).crc0 file.length
                (hdrAt file).len with ⟨_, hv⟩ | ⟨_, _, hv⟩ | ⟨_, _, hv⟩ <;> rw [hv]
              · exact Or.inl ⟨Msg.failCrc, Or.inl rfl, rfl⟩
              · exact Or.inl ⟨Msg.failLen, Or.inr (Or.inl rfl), rfl⟩
              · exact Or.inr (Or.inl rfl)
            · rw [main_patch_eq env file hin h16 hm hr]
              rcases writeOutput_cases env file (crcFold 0 (file.drop 4)) (report file)
                (by omega) with hw | hw | hw <;> rw [hw]
              · exact Or.inl ⟨Msg.errOpenOutput, Or.inr (Or.inr (Or.inl rfl)), rfl⟩
              · exact Or.inl ⟨Msg.errWrite, Or.inr (Or.inr (Or.inr rfl)), rfl⟩
              · exact Or.inr (Or.inr ⟨_, rfl⟩)
            · rw [main_four_eq env file hin h16 hm hr]
              exact Or.inr (Or.inr ⟨_, rfl⟩)

theorem crcByte_zero_zero : crcByte 0 0 = 0 := by decide

theorem crcFold_replicate_zero (k : Nat) (m : List Nat) :
    crcFold 0 (List.replicate k 0 ++ m) = crcFold 0 m := by
  induction k with
  | zero => simp
  | succ k ih =>
    have e : crcFold 0 (List.replicate (k + 1) 0 ++ m)
        = crcFold (crcByte 0 0) (List.replicate k 0 ++ m) := rfl
    rw [e, crcByte_zero_zero, ih]

theorem getD_congr (buf buf2 : List Nat) (i : Nat) (h : buf2[i]? = buf[i]?) :
    buf2.getD i 0 = buf.getD i 0 := by
  simp only [List.getD_eq_getElem?_getD, h]

theorem drop_congr (buf buf2 : List Nat) (n : Nat)
    (h : ∀ i, n ≤ i → buf2[i]? = buf[i]?) : buf2.drop n = buf.drop n := by
  apply List.ext_getElem?
  intro i
  rw [List.getElem?_drop, List.getElem?_drop]
  exact h (n + i) (by omega)

theorem shiftLeft_one_inj {a b : Nat} (h : a <<< 1 = b <<< 1) : a = b := by
  rw [Nat.shiftLeft_eq, Nat.shiftLeft_eq] at h
  omega

theorem crcRound_injective {a b : Nat} (ha : a < 65536) (hb : b < 65536)
    (h : crcRound a = crcRound b) : a = b := by
  have hodd : ∀ x y : Nat, (x <<< 1) ^^^ 0x18005 ≠ y <<< 1 := by
    intro x y e
    have := congrArg (fun n => Nat.testBit n 0) e
    simp [Nat.testBit_shiftLeft] at this
    rw [Nat.shiftLeft_eq] at this
    omega
  cases hta : a.testBit 15 <;> cases htb : b.testBit 15
  · rw [crcRound_of_low a ha hta, crcRound_of_low b hb htb] at h
    exact shiftLeft_one_inj h
  · rw [crcRound_of_low a ha hta, crcRound_of_high b hb htb] at h
    exact absurd h.symm (hodd b a)
  · rw [crcRound_of_high a ha hta, crcRound_of_low b hb htb] at h
    exact absurd h (hodd a b)
  · rw [crcRound_of_high a ha hta, crcRound_of_high b hb htb] at h
    exact shiftLeft_one_inj (Nat.xor_left_injective h)

theorem crcInner_injective : ∀ (n : Nat) {a b : Nat}, a < 65536 → b < 65536 →
    crcInner n a = crcInner n b → a = b
  | 0, _, _, _, _, h => h
  | n + 1, a, b, ha, hb, h =>
    crcRound_injective ha hb (crcInner_injective n (crcRound_lt a) (crcRound_lt b) h)

theorem xor_shl8_lt {c b : Nat} (hc : c < 65536) (hb : b < 256) : c ^^^ (b <<< 8) < 65536 := by
  have h1 : c < 2 ^ 16 := by simpa using hc
  have h2 : b <<< 8 < 2 ^ 16 := by rw [Nat.shiftLeft_eq]; omega
  simpa using Nat.xor_lt_two_pow h1 h2

theorem crcByte_injective_left {c1 c2 b : Nat} (h1 : c1 < 65536) (h2 : c2 < 65536)
    (hb : b < 256) (h : crcByte c1 b = crcByte c2 b) : c1 = c2 := by
  unfold crcByte at h
  rw [Nat.mod_eq_of_lt (xor_shl8_lt h1 hb), Nat.mod_eq_of_lt (xor_shl8_lt h2 hb)] at h
  exact Nat.xor_left_injective (crcInner_injective 8 (xor_shl8_lt h1 hb) (xor_shl8_lt h2 hb) h)

theorem crcByte_injective_right {c b1 b2 : Nat} (hc : c < 65536) (h1 : b1 < 256)
    (h2 : b2 < 256) (h : crcByte c b1 = crcByte c b2) : b1 = b2 := by
  unfold crcByte at h
  rw [Nat.mod_eq_of_lt (xor_shl8_lt hc h1), Nat.mod_eq_of_lt (xor_shl8_lt hc h2)] at h
  have := Nat.xor_right_injective
    (crcInner_injective 8 (xor_shl8_lt hc h1) (xor_shl8_lt hc h2) h)
  rw [Nat.shiftLeft_eq, Nat.shiftLeft_eq] at this
  omega

theorem crcFold_injective (l : List Nat) : ∀ {c1 c2 : Nat}, IsBytes l → c1 < 65536 →
    c2 < 65536 → crcFold c1 l = crcFold c2 l → c1 = c2 := by
  induction l with
  | nil => intro c1 c2 _ _ _ h; exact h
  | cons b t ih =>
    intro c1 c2 hb h1 h2 h
    have hb0 : b < 256 := hb b (List.mem_cons_self _ _)
    have ht : IsBytes t := fun x hx => hb x (List.mem_cons_of_mem _ hx)
    exact crcByte_injective_left h1 h2 hb0 (ih ht (crcByte_lt c1 b) (crcByte_lt c2 b) h)

theorem flip_ne (b k : Nat) : b ^^^ (1 <<< k) ≠ b := by
  intro h
  have h0 : b ^^^ (1 <<< k) = b ^^^ 0 := by rw [h]; simp
  have := Nat.xor_right_injective h0
  rw [Nat.one_shiftLeft] at this
  exact absurd this (by positivity)

theorem flip_lt {b k : Nat} (hb : b < 256) (hk : k < 8) : b ^^^ (1 <<< k) < 256 := by
  have h1 : b < 2 ^ 8 := by simpa using hb
  have h2 : 1 <<< k < 2 ^ 8 := by
    rw [Nat.one_shiftLeft]
    exact Nat.pow_lt_pow_right (by norm_num) hk
  simpa using Nat.xor_lt_two_pow h1 h2

theorem flipBit_cons_zero (b : Nat) (t : List Nat) (k : Nat) :
    flipBit (b :: t) 0 k = (b ^^^ (1 <<< k)) :: t := rfl

theorem flipBit_cons_succ (b : Nat) (t : List Nat) (j k : Nat) :
    flipBit (b :: t) (j + 1) k = b :: flipBit t j k := by
  unfold flipBit
  simp

theorem flipBit_length (data : List Nat) (i k : Nat) :
    (flipBit data i k).length = data.length := by
  unfold flipBit
  simp

/-- A single flipped bit changes the value the loop computes, from any start value. -/
theorem crcFold_flipBit_ne (data : List Nat) (k : Nat) (hk : k < 8) :
    ∀ (i c : Nat), c < 65536 → IsBytes data → i < data.length →
      crcFold c (flipBit data i k) ≠ crcFold c data := by
  induction data with
  | nil => intro i c _ _ hi; simp at hi
  | cons b t ih =>
    intro i c hc hb hi
    have hb0 : b < 256 := hb b (List.mem_cons_self _ _)
    have ht : IsBytes t := fun x hx => hb x (List.mem_cons_of_mem _ hx)
    cases i with
    | zero =>
      rw [flipBit_cons_zero]
      intro h
      have h2 : crcFold (crcByte c (b ^^^ (1 <<< k))) t = crcFold (crcByte c b) t := h
      have h3 := crcFold_injective t ht (crcByte_lt _ _) (crcByte_lt _ _) h2
      exact flip_ne b k (crcByte_injective_right hc (flip_lt hb0 hk) hb0 h3)
    | succ j =>
      rw [flipBit_cons_succ]
      intro h
      have h2 : crcFold (crcByte c b) (flipBit t j k) = crcFold (crcByte c b) t := h
      exact ih j (crcByte c b) (crcByte_lt c b) ht (by simpa using hi) h2

theorem flipBit_drop (data : List Nat) (i k n : Nat) (h : n ≤ i) :
    (flipBit data i k).drop n = flipBit (data.drop n) (i - n) k := by
  unfold flipBit
  rw [List.drop_set, if_neg (by omega)]
  congr 2
  simp only [List.getD_eq_getElem?_getD, List.getElem?_drop]
  congr 2
  omega

theorem flipBit_isBytes (data : List Nat) (i k : Nat) (hb : IsBytes data) (hk : k < 8) :
    IsBytes (flipBit data i k) := by
  intro x hx
  unfold flipBit at hx
  rcases List.mem_or_eq_of_mem_set hx with h | h
  · exact hb x h
  · rw [h]
    exact flip_lt (getD_lt_of_isBytes data hb i) hk

/-- The loop reads nothing but the indices `data .. data + j - 1`: two memories that
agree there give the same result. -/
theorem crcLoop_congr (mem mem2 : List Nat) : ∀ (j data crc : Nat),
    (∀ p, data ≤ p → p < data + j → mem2[p]? = mem[p]?) →
      crcLoop mem2 data j crc = crcLoop mem data j crc := by
  intro j
  induction j with
  | zero => intro data crc _; rfl
  | succ j ih =>
    intro data crc h
    rw [crcLoop, crcLoop, h data (by omega) (by omega)]
    cases mem[data]? with
    | none => rfl
    | some b => exact ih (data + 1) _ (fun p h1 h2 => h p (by omega) (by omega))

/-- The loop reads every index of `data .. data + j - 1`: if one of them is outside
the memory, the run is an out-of-bounds access. -/
theorem crcLoop_none (mem : List Nat) : ∀ (j data crc : Nat),
    (∃ p, data ≤ p ∧ p < data + j ∧ mem[p]? = none) → crcLoop mem data j crc = none := by
  intro j
  induction j with
  | zero => rintro data crc ⟨p, h1, h2, _⟩; omega
  | succ j ih =>
    rintro data crc ⟨p, h1, h2, h3⟩
    rw [crcLoop]
    cases hm : mem[data]? with
    | none => rfl
    | some b =>
      have hne : p ≠ data := by
        intro e
        rw [e, hm] at h3
        cases h3
      exact ih (data + 1) _ ⟨p, by omega, by omega, h3⟩

theorem imgHdr_congr (buf mem2 : List Nat) (h : ∀ j, j < 16 → mem2[j]? = buf[j]?) :
    imgHdr mem2 = imgHdr buf := by
  simp only [imgHdr, load16, load4, h 0 (by omega), h 1 (by omega), h 2 (by omega),
    h 3 (by omega), h 4 (by omega), h 5 (by omega), h 6 (by omega), h 7 (by omega),
    h 8 (by omega), h 9 (by omega), h 10 (by omega), h 11 (by omega), h 12 (by omega),
    h 13 (by omega), h 14 (by omega), h 15 (by omega)]

theorem load16_none (mem : List Nat) (off : Nat) (h : mem.length ≤ off + 1) :
    load16 mem off = none := by
  unfold load16
  rw [List.getElem?_eq_none h]
  split
  · rename_i h2; cases h2
  · rfl

theorem load4_none (mem : List Nat) (off : Nat) (h : mem.length ≤ off + 3) :
    load4 mem off = none := by
  unfold load4
  rw [List.getElem?_eq_none h]
  split
  · rename_i h2; cases h2
  · rfl

theorem imgHdr_none (mem : List Nat) (h : mem.length < 16) : imgHdr mem = none := by
  unfold imgHdr
  rw [load4_none mem 12 (by omega)]
  split
  · rename_i h2; cases h2
  · rfl

theorem patch_none (mem : List Nat) (c : Nat) (h : mem.length < 2) : patch mem c = none := by
  unfold patch store
  by_cases h0 : 0 < mem.length
  · rw [if_pos h0]
    simp only [List.length_set]
    rw [if_neg (by omega)]
  · rw [if_neg h0]

theorem main_returns (argc : Nat) (env : Env) : ∃ r, main argc env = some r := by
  rcases main_cases argc env with hc | ⟨m, _, hc⟩ | ⟨file, _, _, ⟨m, _, hc⟩ | hc | ⟨w, hc⟩⟩ <;>
    exact ⟨_, hc⟩

/-- C1: for every byte sequence, of any length, `CRC16_BUYPASS` over the whole of it
returns a 16-bit value `crc`, and the polynomial over GF(2) whose coefficients are the
bits of `crc` (bit 15 at `x^15`) is the remainder of `M(x) * x^16` divided by
`x^16 + x^15 + x^2 + 1`, where the coefficients of `M(x)` are the bits of the message
read most-significant-bit first. -/
theorem CRC16_BUYPASS_is_remainder (data : List Nat) (hb : IsBytes data) :
    ∃ (crc : Nat) (M r : (ZMod 2)[X]),
      CRC16_BUYPASS data 0 data.length = some crc ∧ crc < 65536 ∧
      IsBitsPoly (msgNat data) M ∧ IsBitsPoly crc r ∧
      r = (M * X ^ 16) %ₘ (X ^ 16 + X ^ 15 + X ^ 2 + 1) := by
  obtain ⟨r, M, t, hr, hM, e⟩ := crcFold_poly data 0 0 0 0 0 hb (by norm_num)
    isBitsPoly_zero isBitsPoly_zero (by ring)
  have hlt : crcFold 0 data < 65536 := crcFold_lt data 0 (by norm_num)
  refine ⟨crcFold 0 data, M, r, CRC16_BUYPASS_whole data, hlt, hM, hr, ?_⟩
  have hdeg : r.degree < (X ^ 16 + X ^ 15 + X ^ 2 + 1 : (ZMod 2)[X]).degree := by
    rw [generator_degree]
    exact isBitsPoly_degree_lt hlt hr
  have hsum : r + (X ^ 16 + X ^ 15 + X ^ 2 + 1) * t = M * X ^ 16 := by
    rw [e]
    have h2 := CharTwo.add_self_eq_zero (t * (X ^ 16 + X ^ 15 + X ^ 2 + 1 : (ZMod 2)[X]))
    calc M * X ^ 16 + t * (X ^ 16 + X ^ 15 + X ^ 2 + 1) + (X ^ 16 + X ^ 15 + X ^ 2 + 1) * t
        = M * X ^ 16 + (t * (X ^ 16 + X ^ 15 + X ^ 2 + 1) + t * (X ^ 16 + X ^ 15 + X ^ 2 + 1)) := by
          ring
      _ = M * X ^ 16 := by rw [h2, add_zero]
  exact ((Polynomial.div_modByMonic_unique t r generator_monic ⟨hsum, hdeg⟩).2).symm

theorem CRC16_BUYPASS_is_remainder_witness :
    IsBytes [0x31, 0x32, 0x33, 0x34, 0x35, 0x36, 0x37, 0x38, 0x39] ∧
    ∃ (crc : Nat) (M r : (ZMod 2)[X]),
      CRC16_BUYPASS [0x31, 0x32, 0x33, 0x34, 0x35, 0x36, 0x37, 0x38, 0x39] 0
        [0x31, 0x32, 0x33, 0x34, 0x35, 0x36, 0x37, 0x38, 0x39].length = some crc ∧
      crc < 65536 ∧
      IsBitsPoly (msgNat [0x31, 0x32, 0x33, 0x34, 0x35, 0x36, 0x37, 0x38, 0x39]) M ∧
      IsBitsPoly crc r ∧
      r = (M * X ^ 16) %ₘ (X ^ 16 + X ^ 15 + X ^ 2 + 1) :=
  ⟨by decide, CRC16_BUYPASS_is_remainder _ (by decide)⟩

/-- C2: `CRC16_BUYPASS` over the nine bytes of ASCII "123456789" returns `0xFEE8`. -/
theorem CRC16_BUYPASS_check_value :
    CRC16_BUYPASS [0x31, 0x32, 0x33, 0x34, 0x35, 0x36, 0x37, 0x38, 0x39] 0 9 = some 0xFEE8 := by
  decide

/-- C3: patch correctness. For a buffer of at least 16 bytes, the checksum `c` over
bytes `[4, len)` is computed, the patch with `c` succeeds, and on the patched buffer
the checksum over `[4, len)` is again `c` and equals the stored checksum, whether
read through the header overlay (`crc0`) or as `buf[1] << 8 | buf[0]`; bytes 0 and 1
hold the low and the high byte of `c`. -/
theorem patch_then_computed_eq_stored (buf : List Nat) (h : 16 ≤ buf.length) :
    ∃ c buf2, CRC16_BUYPASS buf 4 (buf.length - 4) = some c ∧
      patch buf c = some buf2 ∧
      buf2[0]? = some (c % 256) ∧ buf2[1]? = some (c / 256) ∧
      CRC16_BUYPASS buf2 4 (buf2.length - 4) = some c ∧
      load16 buf2 0 = some c ∧ oldCrcOf buf2 = some c := by
  have hc : crcFold 0 (buf.drop 4) < 65536 := crcFold_lt _ _ (by norm_num)
  have hdiv : crcFold 0 (buf.drop 4) / 256 % 256 = crcFold 0 (buf.drop 4) / 256 := by omega
  refine ⟨crcFold 0 (buf.drop 4), _, CRC16_BUYPASS_from buf 4 (by omega),
    patch_eq buf _ (by omega), ?_, ?_, ?_, ?_, ?_⟩
  · rw [List.getElem?_set_ne (by omega), List.getElem?_set_self (by omega)]
  · rw [List.getElem?_set_self (by simp; omega), hdiv]
  · rw [CRC16_BUYPASS_from _ 4 (by simp; omega), patch_drop buf _ 4 (by omega)]
  · rw [load16_eq _ 0 (by simp; omega), patch_getD_zero buf _ (by omega),
      patch_getD_one buf _ (by omega), le16_split _ hc]
  · rw [oldCrcOf_eq _ (by simp; omega), patch_getD_zero buf _ (by omega),
      patch_getD_one buf _ (by omega), shl8_or_eq _ _ (Nat.mod_lt _ (by norm_num)),
      le16_split _ hc]

theorem patch_then_computed_eq_stored_witness :
    16 ≤ (List.replicate 16 7).length ∧
    ∃ c buf2, CRC16_BUYPASS (List.replicate 16 7) 4 ((List.replicate 16 7).length - 4) = some c ∧
      patch (List.replicate 16 7) c = some buf2 ∧
      buf2[0]? = some (c % 256) ∧ buf2[1]? = some (c / 256) ∧
      CRC16_BUYPASS buf2 4 (buf2.length - 4) = some c ∧
      load16 buf2 0 = some c ∧ oldCrcOf buf2 = some c :=
  ⟨by decide, patch_then_computed_eq_stored (List.replicate 16 7) (by decide)⟩

/-- C4: patch frame. For a buffer of at least 16 bytes and a 16-bit checksum `c`, the
patch succeeds; the patched buffer has the length of the input, byte 0 is `c mod 256`,
byte 1 is `c div 256`, and every index from 2 on holds what the input holds there.
In patch mode (`argc = 3`), when the file is read and the output is written, the
bytes written are the input patched with its computed checksum: same length, same
bytes from index 2 on. -/
theorem patch_frame (buf : List Nat) (c : Nat) (h : 16 ≤ buf.length) (hc : c < 65536) :
    (∃ buf2, patch buf c = some buf2 ∧ buf2.length = buf.length ∧
      buf2[0]? = some (c % 256) ∧ buf2[1]? = some (c / 256) ∧
      ∀ i, 2 ≤ i → buf2[i]? = buf[i]?) ∧
    (∀ env : Env, env.input = some buf → env.mallocOk = true → env.freadFull = true →
      env.fopenOut = true → env.fwriteFull = true →
      ∃ r crc out, main 3 env = some r ∧ CRC16_BUYPASS buf 4 (buf.length - 4) = some crc ∧
        patch buf crc = some out ∧ r.written = some out ∧ out.length = buf.length ∧
        ∀ i, 2 ≤ i → out[i]? = buf[i]?) := by
  have hdiv : c / 256 % 256 = c / 256 := by omega
  constructor
  · refine ⟨_, patch_eq buf c (by omega), by simp, ?_, ?_, ?_⟩
    · rw [List.getElem?_set_ne (by omega), List.getElem?_set_self (by omega)]
    · rw [List.getElem?_set_self (by simp; omega), hdiv]
    · intro i hi
      rw [List.getElem?_set_ne (by omega), List.getElem?_set_ne (by omega)]
  · intro env hin hm hr ho hw
    have hmain := main_patch_eq env buf hin h hm hr
    rw [writeOutput_ok env buf _ _ (by omega) ho hw] at hmain
    refine ⟨_, crcFold 0 (buf.drop 4), _, hmain,
      CRC16_BUYPASS_from buf 4 (by omega), patch_eq buf _ (by omega), rfl, by simp, ?_⟩
    intro i hi
    rw [List.getElem?_set_ne (by omega), List.getElem?_set_ne (by omega)]

theorem patch_frame_witness :
    16 ≤ (List.replicate 16 7).length ∧ 0x1234 < 65536 ∧
    ((∃ buf2, patch (List.replicate 16 7) 0x1234 = some buf2 ∧
        buf2.length = (List.replicate 16 7).length ∧
        buf2[0]? = some (0x1234 % 256) ∧ buf2[1]? = some (0x1234 / 256) ∧
        ∀ i, 2 ≤ i → buf2[i]? = (List.replicate 16 7)[i]?) ∧
      (∀ env : Env, env.input = some (List.replicate 16 7) → env.mallocOk = true →
        env.freadFull = true → env.fopenOut = true → env.fwriteFull = true →
        ∃ r crc out, main 3 env = some r ∧
          CRC16_BUYPASS (List.replicate 16 7) 4 ((List.replicate 16 7).length - 4) = some crc ∧
          patch (List.replicate 16 7) crc = some out ∧ r.written = some out ∧
          out.length = (List.replicate 16 7).length ∧
          ∀ i, 2 ≤ i → out[i]? = (List.replicate 16 7)[i]?)) :=
  ⟨by decide, by decide, patch_frame (List.replicate 16 7) 0x1234 (by decide) (by decide)⟩

/-- C5 as stated fails: the 16 zero bytes patched with their own checksum (0, so the
buffer is unchanged) are not classified Valid by verify-only mode: the header
declares 0 words, the file has 4, and the run ends with `Fail: len do not match.`
and returns -1. -/
theorem patched_not_valid_counterexample :
    CRC16_BUYPASS (List.replicate 16 0) 4 (16 - 4) = some 0 ∧
    patch (List.replicate 16 0) 0 = some (List.replicate 16 0) ∧
    main 2 ⟨some (List.replicate 16 0), true, true, true, true⟩ =
      some ⟨-1, [Msg.header ⟨0, 0, 0, 0, [0, 0, 0, 0], [0, 0, 0, 0]⟩, Msg.warnMismatch,
        Msg.fileLength 4, Msg.oldCrc 0, Msg.newCrc 0, Msg.failLen], none⟩ := by
  decide

/-- C5, amended: for a buffer of at least 16 bytes, the checksum over `[4, len)` is
computed and the patch with it succeeds; verify-only mode (`argc = 2`) on the patched
buffer returns, never with the checksum failure: it prints `OK.` and returns 0 when
`len / 4` equals the declared length (bytes 6 and 7, which the patch leaves alone),
and prints `Fail: len do not match.` and returns -1 otherwise. -/
theorem patched_verify (buf : List Nat) (h : 16 ≤ buf.length) :
    ∃ c buf2, CRC16_BUYPASS buf 4 (buf.length - 4) = some c ∧ patch buf c = some buf2 ∧
      ∀ env : Env, env.input = some buf2 → env.mallocOk = true → env.freadFull = true →
        ∃ r, main 2 env = some r ∧
          (buf.length / 4 = buf.getD 6 0 + 256 * buf.getD 7 0 →
            r.status = 0 ∧ verdict r = [Msg.ok]) ∧
          (buf.length / 4 ≠ buf.getD 6 0 + 256 * buf.getD 7 0 →
            r.status = -1 ∧ verdict r = [Msg.failLen]) := by
  have hc : crcFold 0 (buf.drop 4) < 65536 := crcFold_lt _ _ (by norm_num)
  refine ⟨crcFold 0 (buf.drop 4), _, CRC16_BUYPASS_from buf 4 (by omega),
    patch_eq buf _ (by omega), ?_⟩
  intro env hin hm hr
  have hlen : ((buf.set 0 (crcFold 0 (buf.drop 4) % 256)).set 1
      (crcFold 0 (buf.drop 4) / 256 % 256)).length = buf.length := by simp
  have hcrc0 : (hdrAt ((buf.set 0 (crcFold 0 (buf.drop 4) % 256)).set 1
      (crcFold 0 (buf.drop 4) / 256 % 256))).crc0 = crcFold 0 (buf.drop 4) := by
    show _ + 256 * _ = _
    rw [patch_getD_zero buf _ (by omega), patch_getD_one buf _ (by omega), le16_split _ hc]
  have hl : (hdrAt ((buf.set 0 (crcFold 0 (buf.drop 4) % 256)).set 1
      (crcFold 0 (buf.drop 4) / 256 % 256))).len = buf.getD 6 0 + 256 * buf.getD 7 0 := by
    show _ + 256 * _ = _
    rw [patch_getD buf _ 6 (by omega), patch_getD buf _ 7 (by omega)]
  obtain ⟨r, hmain, _, _, h2, h3⟩ :=
    main_verify_verdict env _ hin (by rw [hlen]; exact h) hm hr
  rw [patch_drop buf _ 4 (by omega), hcrc0, hl, hlen] at h2 h3
  exact ⟨r, hmain, fun e => h3 rfl e, fun e => h2 rfl e⟩

theorem patched_verify_witness :
    16 ≤ (List.replicate 16 0).length ∧
    ∃ c buf2, CRC16_BUYPASS (List.replicate 16 0) 4 ((List.replicate 16 0).length - 4) = some c ∧
      patch (List.replicate 16 0) c = some buf2 ∧
      ∃ r, main 2 ⟨some buf2, true, true, true, true⟩ = some r ∧
        ((List.replicate 16 0).length / 4 =
            (List.replicate 16 0).getD 6 0 + 256 * (List.replicate 16 0).getD 7 0 →
          r.status = 0 ∧ verdict r = [Msg.ok]) ∧
        ((List.replicate 16 0).length / 4 ≠
            (List.replicate 16 0).getD 6 0 + 256 * (List.replicate 16 0).getD 7 0 →
          r.status = -1 ∧ verdict r = [Msg.failLen]) :=
  ⟨by decide, (patched_verify (List.replicate 16 0) (by decide)).imp fun _ hc =>
    hc.imp fun buf2 h => ⟨h.1, h.2.1, h.2.2 ⟨some buf2, true, true, true, true⟩ rfl rfl rfl⟩⟩

/-- C6: verify-only classification. For a file of at least 16 bytes that was read,
verify-only mode (`argc = 2`) returns, having computed the checksum `crc` over
`[4, len)` and read the header `hdr`, and: if `crc` differs from the stored `hdr.crc0`
the run prints `Fail: crc do not match.` as its only verdict and returns -1, whatever
the lengths are; otherwise, if `len / 4` differs from `hdr.len`, it prints `Fail: len
do not match.` as its only verdict and returns -1; otherwise it prints `OK.` and
returns 0. -/
theorem verify_only_classification (env : Env) (file : List Nat)
    (hin : env.input = some file) (h : 16 ≤ file.length)
    (hm : env.mallocOk = true) (hr : env.freadFull = true) :
    ∃ r hdr crc, main 2 env = some r ∧ imgHdr file = some hdr ∧
      CRC16_BUYPASS file 4 (file.length - 4) = some crc ∧
      (crc ≠ hdr.crc0 → r.status = -1 ∧ verdict r = [Msg.failCrc]) ∧
      (crc = hdr.crc0 → file.length / 4 ≠ hdr.len →
        r.status = -1 ∧ verdict r = [Msg.failLen]) ∧
      (crc = hdr.crc0 → file.length / 4 = hdr.len → r.status = 0 ∧ verdict r = [Msg.ok]) := by
  obtain ⟨r, hmain, _, h1, h2, h3⟩ := main_verify_verdict env file hin h hm hr
  exact ⟨r, hdrAt file, crcFold 0 (file.drop 4), hmain, imgHdr_eq file h,
    CRC16_BUYPASS_from file 4 (by omega), h1, h2, h3⟩

theorem verify_only_classification_witness :
    (⟨some (List.replicate 16 0), true, true, true, true⟩ : Env).input
        = some (List.replicate 16 0) ∧
    16 ≤ (List.replicate 16 0).length ∧
    ∃ r hdr crc, main 2 ⟨some (List.replicate 16 0), true, true, true, true⟩ = some r ∧
      imgHdr (List.replicate 16 0) = some hdr ∧
      CRC16_BUYPASS (List.replicate 16 0) 4 ((List.replicate 16 0).length - 4) = some crc ∧
      (crc ≠ hdr.crc0 → r.status = -1 ∧ verdict r = [Msg.failCrc]) ∧
      (crc = hdr.crc0 → (List.replicate 16 0).length / 4 ≠ hdr.len →
        r.status = -1 ∧ verdict r = [Msg.failLen]) ∧
      (crc = hdr.crc0 → (List.replicate 16 0).length / 4 = hdr.len →
        r.status = 0 ∧ verdict r = [Msg.ok]) :=
  ⟨rfl, by decide, verify_only_classification ⟨some (List.replicate 16 0), true, true, true, true⟩
    (List.replicate 16 0) rfl (by decide) rfl rfl⟩

/-- C7: header-size boundary. For a run with an input file that opens (`argc` from 2
to 4), the run ends with `Error: File size too small!` and -1, having printed nothing
else (no header field, no checksum), exactly when the file has fewer than 16 bytes; so
it does for every file of 15 bytes; and a file of exactly 16 bytes that is read is
accepted: the run returns with the checksum of the bytes `[4, 16)` printed as the new
CRC. -/
theorem header_size_boundary (argc : Nat) (env : Env) (file : List Nat)
    (ha : 2 ≤ argc ∧ argc ≤ 4) (hin : env.input = some file) :
    (file.length < 16 ↔ main argc env = some ⟨-1, [Msg.errTooSmall], none⟩) ∧
    (file.length = 15 → main argc env = some ⟨-1, [Msg.errTooSmall], none⟩) ∧
    (file.length = 16 → env.mallocOk = true → env.freadFull = true →
      ∃ r crc, main argc env = some r ∧ CRC16_BUYPASS file 4 (16 - 4) = some crc ∧
        CRC16_BUYPASS (file.drop 4) 0 12 = some crc ∧ (file.drop 4).length = 12 ∧
        Msg.newCrc crc ∈ r.out ∧ Msg.errTooSmall ∉ r.out) := by
  have hsmall : file.length < 16 → main argc env = some ⟨-1, [Msg.errTooSmall], none⟩ := by
    intro hl
    unfold main
    rw [if_neg (by omega), hin]
    simp only [sizeof_img_hdr_t]
    rw [if_pos hl]
  refine ⟨⟨hsmall, ?_⟩, fun h15 => hsmall (by omega), ?_⟩
  · intro hmain
    by_contra hl
    have h16 : 16 ≤ file.length := by omega
    cases hm : env.mallocOk with
    | false =>
      unfold main at hmain
      rw [if_neg (by omega), hin] at hmain
      simp [sizeof_img_hdr_t, hm, hl] at hmain
    | true =>
      cases hr : env.freadFull with
      | false =>
        unfold main at hmain
        rw [if_neg (by omega), hin] at hmain
        simp [sizeof_img_hdr_t, hm, hr, hl] at hmain
      | true =>
        obtain ⟨r, rest, hrun, hout, _⟩ := main_out argc env file ha hin h16 hm hr
        rw [hrun] at hmain
        cases hmain
        simp [report] at hout
  · intro h16 hm hr
    obtain ⟨r, rest, hrun, hout, hrest⟩ := main_out argc env file ha hin (by omega) hm hr
    have hlen : (file.drop 4).length = 12 := by simp [h16]
    refine ⟨r, crcFold 0 (file.drop 4), hrun, ?_, ?_, hlen, ?_, ?_⟩
    · have := CRC16_BUYPASS_from file 4 (by omega)
      rwa [h16] at this
    · have := CRC16_BUYPASS_whole (file.drop 4)
      rwa [hlen] at this
    · rw [hout]
      exact List.mem_append_left _ (newCrc_mem_report file)
    · rw [hout]
      intro hmem
      rcases List.mem_append.1 hmem with h1 | h1
      · unfold report at h1
        rcases lengthWarning_cases (hdrAt file).len file.length with hw | hw | hw <;>
          rw [hw] at h1 <;> simp at h1
      · rcases hrest _ h1 with h2 | h2 | h2 | h2 | h2 <;> cases h2

theorem header_size_boundary_witness :
    (2 ≤ 2 ∧ 2 ≤ 4) ∧
    (⟨some (List.replicate 16 0), true, true, true, true⟩ : Env).input
      = some (List.replicate 16 0) ∧
    ((List.replicate 16 0).length < 16 ↔
      main 2 ⟨some (List.replicate 16 0), true, true, true, true⟩ =
        some ⟨-1, [Msg.errTooSmall], none⟩) ∧
    ((List.replicate 16 0).length = 15 →
      main 2 ⟨some (List.replicate 16 0), true, true, true, true⟩ =
        some ⟨-1, [Msg.errTooSmall], none⟩) ∧
    ((List.replicate 16 0).length = 16 →
      (⟨some (List.replicate 16 0), true, true, true, true⟩ : Env).mallocOk = true →
      (⟨some (List.replicate 16 0), true, true, true, true⟩ : Env).freadFull = true →
      ∃ r crc, main 2 ⟨some (List.replicate 16 0), true, true, true, true⟩ = some r ∧
        CRC16_BUYPASS (List.replicate 16 0) 4 (16 - 4) = some crc ∧
        CRC16_BUYPASS ((List.replicate 16 0).drop 4) 0 12 = some crc ∧
        ((List.replicate 16 0).drop 4).length = 12 ∧
        Msg.newCrc crc ∈ r.out ∧ Msg.errTooSmall ∉ r.out) :=
  ⟨by decide, rfl, header_size_boundary 2 ⟨some (List.replicate 16 0), true, true, true, true⟩
    (List.replicate 16 0) (by decide) rfl⟩

/-- C8: compute and compare. For a file of bytes, at least 16 of them, that was read,
verify-only mode (`argc = 2`) returns; the checksum it prints as the new CRC is
`CRC16_BUYPASS` started at index 4 for `len - 4` bytes, which is `CRC16_BUYPASS` of
the list of the bytes at indices 4 to `len - 1` taken alone (`len - 4` bytes); the
stored checksum it compares with, the header field `crc0`, is `buf[0] + 256 * buf[1]`,
the value printed as the old CRC; and the run ends with the checksum failure exactly
when the two differ. -/
theorem compute_and_compare (env : Env) (file : List Nat)
    (hin : env.input = some file) (h : 16 ≤ file.length) (hb : IsBytes file)
    (hm : env.mallocOk = true) (hr : env.freadFull = true) :
    ∃ r crc hdr b0 b1, main 2 env = some r ∧
      CRC16_BUYPASS file 4 (file.length - 4) = some crc ∧
      CRC16_BUYPASS (file.drop 4) 0 (file.length - 4) = some crc ∧
      (file.drop 4).length = file.length - 4 ∧
      (∀ i, (file.drop 4)[i]? = file[4 + i]?) ∧
      file[0]? = some b0 ∧ file[1]? = some b1 ∧
      imgHdr file = some hdr ∧ hdr.crc0 = b0 + 256 * b1 ∧
      oldCrcOf file = some (b0 + 256 * b1) ∧
      Msg.newCrc crc ∈ r.out ∧ Msg.oldCrc (b0 + 256 * b1) ∈ r.out ∧
      (verdict r = [Msg.failCrc] ↔ crc ≠ b0 + 256 * b1) := by
  obtain ⟨r, hrun, _, h1, h2, h3⟩ := main_verify_verdict env file hin h hm hr
  have hout : r.out = report file ++
      (verify (crcFold 0 (file.drop 4)) (hdrAt file).crc0 file.length (hdrAt file).len).1 := by
    have := main_verify_eq env file hin h hm hr
    rw [hrun] at this
    cases this
    rfl
  have hlen : (file.drop 4).length = file.length - 4 := by simp
  have hg0 : file[0]? = some (file.getD 0 0) := by
    rw [List.getD_eq_getElem?_getD, List.getElem?_eq_getElem (by omega)]; rfl
  have hg1 : file[1]? = some (file.getD 1 0) := by
    rw [List.getD_eq_getElem?_getD, List.getElem?_eq_getElem (by omega)]; rfl
  have hold := oldCrcOf_eq_crc0 file (by omega) hb
  refine ⟨r, crcFold 0 (file.drop 4), hdrAt file, file.getD 0 0, file.getD 1 0, hrun,
    CRC16_BUYPASS_from file 4 (by omega), ?_, hlen, fun i => List.getElem?_drop file 4 i,
    hg0, hg1, imgHdr_eq file h, rfl, hold, ?_, ?_, ?_⟩
  · have := CRC16_BUYPASS_whole (file.drop 4)
    rwa [hlen] at this
  · rw [hout]
    exact List.mem_append_left _ (newCrc_mem_report file)
  · rw [hout]
    have := oldCrc_mem_report file
    rw [shl8_or_eq _ _ (getD_lt_of_isBytes file hb 0)] at this
    exact List.mem_append_left _ this
  · change verdict r = [Msg.failCrc] ↔ crcFold 0 (file.drop 4) ≠ (hdrAt file).crc0
    constructor
    · intro hv hc
      by_cases hl : file.length / 4 = (hdrAt file).len
      · rw [(h3 hc hl).2] at hv
        cases hv
      · rw [(h2 hc hl).2] at hv
        cases hv
    · intro hc
      exact (h1 hc).2

theorem compute_and_compare_witness :
    (⟨some (List.replicate 16 1), true, true, true, true⟩ : Env).input
      = some (List.replicate 16 1) ∧
    16 ≤ (List.replicate 16 1).length ∧ IsBytes (List.replicate 16 1) ∧
    ∃ r crc hdr b0 b1, main 2 ⟨some (List.replicate 16 1), true, true, true, true⟩ = some r ∧
      CRC16_BUYPASS (List.replicate 16 1) 4 ((List.replicate 16 1).length - 4) = some crc ∧
      CRC16_BUYPASS ((List.replicate 16 1).drop 4) 0 ((List.replicate 16 1).length - 4)
        = some crc ∧
      ((List.replicate 16 1).drop 4).length = (List.replicate 16 1).length - 4 ∧
      (∀ i, ((List.replicate 16 1).drop 4)[i]? = (List.replicate 16 1)[4 + i]?) ∧
      (List.replicate 16 1)[0]? = some b0 ∧ (List.replicate 16 1)[1]? = some b1 ∧
      imgHdr (List.replicate 16 1) = some hdr ∧ hdr.crc0 = b0 + 256 * b1 ∧
      oldCrcOf (List.replicate 16 1) = some (b0 + 256 * b1) ∧
      Msg.newCrc crc ∈ r.out ∧ Msg.oldCrc (b0 + 256 * b1) ∈ r.out ∧
      (verdict r = [Msg.failCrc] ↔ crc ≠ b0 + 256 * b1) :=
  ⟨rfl, by decide, by decide,
    compute_and_compare ⟨some (List.replicate 16 1), true, true, true, true⟩
      (List.replicate 16 1) rfl (by decide) (by decide) rfl rfl⟩

/-- C9: the length check. For every declared length `hdrLen` and file size `len`, the
check prints nothing (LengthOk) exactly when `hdrLen = len / 4`, `Warning: File smaller
than header len.` (FileSmallerThanHeader) exactly when `hdrLen > len / 4`, and
`Warning: File size and header len do not match.` (LengthMismatch) exactly when
`hdrLen < len / 4`; one of the three always holds and no two hold together. Whatever
the outcome, a run on a file of at least 16 bytes that was read returns with the
outcome printed and with the checksum over `[4, len)` printed as the new CRC. -/
theorem check_length_outcomes (hdrLen len : Nat) :
    (lengthWarning hdrLen len = [] ↔ hdrLen = len / 4) ∧
    (lengthWarning hdrLen len = [Msg.warnSmaller] ↔ hdrLen > len / 4) ∧
    (lengthWarning hdrLen len = [Msg.warnMismatch] ↔ hdrLen < len / 4) ∧
    (lengthWarning hdrLen len = [] ∨ lengthWarning hdrLen len = [Msg.warnSmaller] ∨
      lengthWarning hdrLen len = [Msg.warnMismatch]) ∧
    (∀ (argc : Nat) (env : Env) (file : List Nat), 2 ≤ argc ∧ argc ≤ 4 →
      env.input = some file → 16 ≤ file.length → env.mallocOk = true →
      env.freadFull = true →
      ∃ r hdr crc, main argc env = some r ∧ imgHdr file = some hdr ∧
        CRC16_BUYPASS file 4 (file.length - 4) = some crc ∧ Msg.newCrc crc ∈ r.out ∧
        ∀ m ∈ lengthWarning hdr.len file.length, m ∈ r.out) := by
  refine ⟨lengthWarning_nil_iff hdrLen len, lengthWarning_smaller_iff hdrLen len,
    lengthWarning_mismatch_iff hdrLen len, lengthWarning_cases hdrLen len, ?_⟩
  intro argc env file ha hin h hm hr
  obtain ⟨r, rest, hrun, hout, _⟩ := main_out argc env file ha hin h hm hr
  refine ⟨r, hdrAt file, crcFold 0 (file.drop 4), hrun, imgHdr_eq file h,
    CRC16_BUYPASS_from file 4 (by omega), ?_, ?_⟩
  · rw [hout]
    exact List.mem_append_left _ (newCrc_mem_report file)
  · intro m hmem
    rw [hout]
    exact List.mem_append_left _ (lengthWarning_sub_report file m hmem)

theorem check_length_outcomes_witness :
    (lengthWarning 5 20 = [] ↔ 5 = 20 / 4) ∧
    (lengthWarning 5 20 = [Msg.warnSmaller] ↔ 5 > 20 / 4) ∧
    (lengthWarning 5 20 = [Msg.warnMismatch] ↔ 5 < 20 / 4) ∧
    (lengthWarning 5 20 = [] ∨ lengthWarning 5 20 = [Msg.warnSmaller] ∨
      lengthWarning 5 20 = [Msg.warnMismatch]) ∧
    ∃ r hdr crc, main 2 ⟨some (List.replicate 16 0), true, true, true, true⟩ = some r ∧
      imgHdr (List.replicate 16 0) = some hdr ∧
      CRC16_BUYPASS (List.replicate 16 0) 4 ((List.replicate 16 0).length - 4) = some crc ∧
      Msg.newCrc crc ∈ r.out ∧
      ∀ m ∈ lengthWarning hdr.len (List.replicate 16 0).length, m ∈ r.out :=
  ⟨(check_length_outcomes 5 20).1, (check_length_outcomes 5 20).2.1,
    (check_length_outcomes 5 20).2.2.1, (check_length_outcomes 5 20).2.2.2.1,
    (check_length_outcomes 5 20).2.2.2.2 2 ⟨some (List.replicate 16 0), true, true, true, true⟩
      (List.replicate 16 0) (by decide) rfl (by decide) rfl rfl⟩

/-- C10 as stated fails: a file of 17 bytes whose header declares 4 words has a size
different from 4 * 4 bytes, and the length check prints no warning, since 17 / 4 = 4:
with the matching checksum stored, verify-only mode prints `OK.` and returns 0. -/
theorem length_warning_counterexample :
    16 ≤ [3, 213, 0, 0, 0, 0, 4, 0, 0, 0, 0, 0, 0, 0, 0, 0, 0].length ∧
    (imgHdr [3, 213, 0, 0, 0, 0, 4, 0, 0, 0, 0, 0, 0, 0, 0, 0, 0]).map (fun hdr => hdr.len)
      = some 4 ∧
    [3, 213, 0, 0, 0, 0, 4, 0, 0, 0, 0, 0, 0, 0, 0, 0, 0].length ≠ 4 * 4 ∧
    lengthWarning 4 [3, 213, 0, 0, 0, 0, 4, 0, 0, 0, 0, 0, 0, 0, 0, 0, 0].length = [] ∧
    main 2 ⟨some [3, 213, 0, 0, 0, 0, 4, 0, 0, 0, 0, 0, 0, 0, 0, 0, 0], true, true, true, true⟩ =
      some ⟨0, [Msg.header ⟨54531, 0, 0, 4, [0, 0, 0, 0], [0, 0, 0, 0]⟩,
        Msg.fileLength 4, Msg.oldCrc 54531, Msg.newCrc 54531, Msg.ok], none⟩ := by
  decide

/-- C10, amended: for a file of at least 16 bytes that was read, the run returns and
prints a length warning exactly when `len / 4` differs from the declared length, that
is exactly when the size is outside `4 * hdr.len .. 4 * hdr.len + 3`; so it does
whenever the size is a multiple of 4 other than `4 * hdr.len`. -/
theorem length_warning_iff (argc : Nat) (env : Env) (file : List Nat)
    (ha : 2 ≤ argc ∧ argc ≤ 4) (hin : env.input = some file) (h : 16 ≤ file.length)
    (hm : env.mallocOk = true) (hr : env.freadFull = true) :
    ∃ r hdr, main argc env = some r ∧ imgHdr file = some hdr ∧
      ((Msg.warnSmaller ∈ r.out ∨ Msg.warnMismatch ∈ r.out) ↔ file.length / 4 ≠ hdr.len) ∧
      (file.length / 4 ≠ hdr.len ↔
        ¬ (4 * hdr.len ≤ file.length ∧ file.length < 4 * hdr.len + 4)) ∧
      (file.length % 4 = 0 → file.length ≠ 4 * hdr.len →
        (Msg.warnSmaller ∈ r.out ∨ Msg.warnMismatch ∈ r.out)) := by
  obtain ⟨r, rest, hrun, hout, hrest⟩ := main_out argc env file ha hin h hm hr
  have hiff : (Msg.warnSmaller ∈ r.out ∨ Msg.warnMismatch ∈ r.out) ↔
      file.length / 4 ≠ (hdrAt file).len := by
    have hnot : ∀ m, (m = Msg.warnSmaller ∨ m = Msg.warnMismatch) → m ∉ rest := by
      intro m hmm hmem
      rcases hrest m hmem with h2 | h2 | h2 | h2 | h2 <;> rcases hmm with h3 | h3 <;>
        rw [h2] at h3 <;> cases h3
    have hrep := warn_mem_report_iff file
    have hnil := lengthWarning_nil_iff (hdrAt file).len file.length
    rw [hout]
    simp only [List.mem_append]
    constructor
    · rintro ((h1 | h1) | (h1 | h1))
      · intro he; exact (hrep.1 (Or.inl h1)) (hnil.2 he.symm)
      · exact absurd h1 (hnot _ (Or.inl rfl))
      · intro he; exact (hrep.1 (Or.inr h1)) (hnil.2 he.symm)
      · exact absurd h1 (hnot _ (Or.inr rfl))
    · intro hne
      have : lengthWarning (hdrAt file).len file.length ≠ [] := fun e => hne (hnil.1 e).symm
      rcases hrep.2 this with h1 | h1
      · exact Or.inl (Or.inl h1)
      · exact Or.inr (Or.inl h1)
  refine ⟨r, hdrAt file, hrun, imgHdr_eq file h, hiff, by omega, ?_⟩
  intro h4 hne
  exact hiff.2 (by omega)

theorem length_warning_iff_witness :
    (2 ≤ 2 ∧ 2 ≤ 4) ∧
    (⟨some (List.replicate 16 0), true, true, true, true⟩ : Env).input
      = some (List.replicate 16 0) ∧
    16 ≤ (List.replicate 16 0).length ∧
    ∃ r hdr, main 2 ⟨some (List.replicate 16 0), true, true, true, true⟩ = some r ∧
      imgHdr (List.replicate 16 0) = some hdr ∧
      ((Msg.warnSmaller ∈ r.out ∨ Msg.warnMismatch ∈ r.out) ↔
        (List.replicate 16 0).length / 4 ≠ hdr.len) ∧
      ((List.replicate 16 0).length / 4 ≠ hdr.len ↔
        ¬ (4 * hdr.len ≤ (List.replicate 16 0).length ∧
          (List.replicate 16 0).length < 4 * hdr.len + 4)) ∧
      ((List.replicate 16 0).length % 4 = 0 → (List.replicate 16 0).length ≠ 4 * hdr.len →
        (Msg.warnSmaller ∈ r.out ∨ Msg.warnMismatch ∈ r.out)) :=
  ⟨by decide, rfl, by decide,
    length_warning_iff 2 ⟨some (List.replicate 16 0), true, true, true, true⟩
      (List.replicate 16 0) (by decide) rfl (by decide) rfl rfl⟩

/-- C11: patch mode never fails on content. For a file of at least 16 bytes, with an
output path given (`argc = 3`), when the file is read and the output file is opened
and written in full, the run returns 0 and writes the input patched with its computed
checksum, printing no failure line, whatever the stored checksum and the declared
length are. -/
theorem patch_mode_succeeds (env : Env) (file : List Nat)
    (hin : env.input = some file) (h : 16 ≤ file.length)
    (hm : env.mallocOk = true) (hr : env.freadFull = true)
    (ho : env.fopenOut = true) (hw : env.fwriteFull = true) :
    ∃ r crc out, main 3 env = some r ∧ r.status = 0 ∧
      CRC16_BUYPASS file 4 (file.length - 4) = some crc ∧ patch file crc = some out ∧
      r.written = some out ∧ verdict r = [] ∧
      Msg.errOpenOutput ∉ r.out ∧ Msg.errWrite ∉ r.out := by
  have hmain := main_patch_eq env file hin h hm hr
  rw [writeOutput_ok env file _ _ (by omega) ho hw] at hmain
  refine ⟨_, crcFold 0 (file.drop 4), _, hmain, rfl, CRC16_BUYPASS_from file 4 (by omega),
    patch_eq file _ (by omega), rfl, ?_, ?_, ?_⟩
  · exact report_filter file
  · show Msg.errOpenOutput ∉ report file
    unfold report
    rcases lengthWarning_cases (hdrAt file).len file.length with hl | hl | hl <;>
      rw [hl] <;> simp
  · show Msg.errWrite ∉ report file
    unfold report
    rcases lengthWarning_cases (hdrAt file).len file.length with hl | hl | hl <;>
      rw [hl] <;> simp

theorem patch_mode_succeeds_witness :
    (⟨some (List.replicate 16 0), true, true, true, true⟩ : Env).input
      = some (List.replicate 16 0) ∧
    16 ≤ (List.replicate 16 0).length ∧
    ∃ r crc out, main 3 ⟨some (List.replicate 16 0), true, true, true, true⟩ = some r ∧
      r.status = 0 ∧
      CRC16_BUYPASS (List.replicate 16 0) 4 ((List.replicate 16 0).length - 4) = some crc ∧
      patch (List.replicate 16 0) crc = some out ∧
      r.written = some out ∧ verdict r = [] ∧
      Msg.errOpenOutput ∉ r.out ∧ Msg.errWrite ∉ r.out :=
  ⟨rfl, by decide, patch_mode_succeeds ⟨some (List.replicate 16 0), true, true, true, true⟩
    (List.replicate 16 0) rfl (by decide) rfl rfl rfl rfl⟩

/-- C12, the code at the failing input: with three arguments after the program name
(`argc = 4`) the guard `argc < 2 || argc > 4` lets the run through. On a readable
file of 16 zero bytes it prints the header and the checksums, not the usage text, and
returns 0 without verifying or patching; on a file that does not open it returns -1.
The usage text is printed, and 0 returned, only for `argc < 2` and `argc > 4`. -/
theorem usage_guard_admits_three_arguments :
    main 4 ⟨some (List.replicate 16 0), true, true, true, true⟩ =
      some ⟨0, [Msg.header ⟨0, 0, 0, 0, [0, 0, 0, 0], [0, 0, 0, 0]⟩, Msg.warnMismatch,
        Msg.fileLength 4, Msg.oldCrc 0, Msg.newCrc 0], none⟩ ∧
    main 4 ⟨none, true, true, true, true⟩ = some ⟨-1, [Msg.errOpenInput], none⟩ ∧
    (∀ (argc : Nat) (env : Env), argc < 2 ∨ argc > 4 →
      main argc env = some ⟨0, [Msg.usage], none⟩) ∧
    (∀ (argc : Nat) (env : Env), main argc env = some ⟨0, [Msg.usage], none⟩ →
      argc < 2 ∨ argc > 4) := by
  refine ⟨by decide, by decide, ?_, ?_⟩
  · intro argc env ha
    unfold main
    rw [if_pos ha]
  · intro argc env hmain
    by_contra hna
    have ha : 2 ≤ argc ∧ argc ≤ 4 := by omega
    unfold main at hmain
    rw [if_neg hna] at hmain
    cases hin : env.input with
    | none => rw [hin] at hmain; simp at hmain
    | some file =>
      rw [hin] at hmain
      simp only [sizeof_img_hdr_t] at hmain
      by_cases hl : file.length < 16
      · simp [hl] at hmain
      · cases hm : env.mallocOk with
        | false => simp [hl, hm] at hmain
        | true =>
          cases hr : env.freadFull with
          | false => simp [hl, hm, hr] at hmain
          | true =>
            obtain ⟨r, rest, hrun, hout, _⟩ :=
              main_out argc env file ha hin (by omega) hm hr
            rw [main_eq_process argc env file ha hin (by omega) hm hr] at hrun
            simp only [hl, hm, hr] at hmain
            simp at hmain
            rw [hrun] at hmain
            cases hmain
            simp [report] at hout

/-- C13: header parsing. For a buffer of at least 16 bytes the header overlay is read
in full: `crc0 = buf[0] + 256 * buf[1]`, `crc1 = buf[2] + 256 * buf[3]`,
`ver = buf[4] + 256 * buf[5]`, `len = buf[6] + 256 * buf[7]`, `uid` is bytes 8 to 11
and `res` is bytes 12 to 15 (indices below 16 all hold a byte of the buffer). Reading
it changes no byte: every run on the file prints this header, and whatever a run
writes has the length of the input and its bytes from index 2 on. -/
theorem parse_header (buf : List Nat) (h : 16 ≤ buf.length) :
    ∃ hdr, imgHdr buf = some hdr ∧
      (∀ i, i < 16 → buf[i]? = some (buf.getD i 0)) ∧
      hdr.crc0 = buf.getD 0 0 + 256 * buf.getD 1 0 ∧
      hdr.crc1 = buf.getD 2 0 + 256 * buf.getD 3 0 ∧
      hdr.ver = buf.getD 4 0 + 256 * buf.getD 5 0 ∧
      hdr.len = buf.getD 6 0 + 256 * buf.getD 7 0 ∧
      hdr.uid = [buf.getD 8 0, buf.getD 9 0, buf.getD 10 0, buf.getD 11 0] ∧
      hdr.res = [buf.getD 12 0, buf.getD 13 0, buf.getD 14 0, buf.getD 15 0] ∧
      (∀ (argc : Nat) (env : Env), 2 ≤ argc ∧ argc ≤ 4 → env.input = some buf →
        env.mallocOk = true → env.freadFull = true →
        ∃ r, main argc env = some r ∧ Msg.header hdr ∈ r.out ∧
          ∀ out, r.written = some out →
            out.length = buf.length ∧ ∀ i, 2 ≤ i → out[i]? = buf[i]?) := by
  refine ⟨hdrAt buf, imgHdr_eq buf h, fun i hi => getElem?_eq_some_getD buf i (by omega),
    rfl, rfl, rfl, rfl, rfl, rfl, ?_⟩
  intro argc env ha hin hm hr
  have hhead : Msg.header (hdrAt buf) ∈ report buf := by simp [report]
  have hcases : argc = 2 ∨ argc = 3 ∨ argc = 4 := by omega
  rcases hcases with rfl | rfl | rfl
  · refine ⟨_, main_verify_eq env buf hin h hm hr, List.mem_append_left _ hhead, ?_⟩
    intro out hout
    cases hout
  · rw [main_patch_eq env buf hin h hm hr]
    rcases writeOutput_cases env buf (crcFold 0 (buf.drop 4)) (report buf) (by omega)
      with hw | hw | hw <;> rw [hw]
    · exact ⟨_, rfl, List.mem_append_left _ hhead, fun out hout => by cases hout⟩
    · exact ⟨_, rfl, List.mem_append_left _ hhead, fun out hout => by cases hout⟩
    · refine ⟨_, rfl, hhead, ?_⟩
      intro out hout
      cases hout
      refine ⟨by simp, ?_⟩
      intro i hi
      rw [List.getElem?_set_ne (by omega), List.getElem?_set_ne (by omega)]
  · exact ⟨_, main_four_eq env buf hin h hm hr, hhead, fun out hout => by cases hout⟩

theorem parse_header_witness :
    16 ≤ [0x34, 0x12, 0xFF, 0xFF, 1, 0, 5, 0, 65, 66, 67, 68, 0, 0, 0, 0, 1, 2, 3, 4].length ∧
    ∃ hdr, imgHdr [0x34, 0x12, 0xFF, 0xFF, 1, 0, 5, 0, 65, 66, 67, 68, 0, 0, 0, 0, 1, 2, 3, 4]
        = some hdr ∧
      hdr = ⟨0x1234, 0xFFFF, 1, 5, [65, 66, 67, 68], [0, 0, 0, 0]⟩ ∧
      ∃ r, main 3 ⟨some [0x34, 0x12, 0xFF, 0xFF, 1, 0, 5, 0, 65, 66, 67, 68, 0, 0, 0, 0,
          1, 2, 3, 4], true, true, true, true⟩ = some r ∧ Msg.header hdr ∈ r.out ∧
        ∀ out, r.written = some out →
          out.length
            = [0x34, 0x12, 0xFF, 0xFF, 1, 0, 5, 0, 65, 66, 67, 68, 0, 0, 0, 0, 1, 2, 3, 4].length ∧
          ∀ i, 2 ≤ i → out[i]?
            = [0x34, 0x12, 0xFF, 0xFF, 1, 0, 5, 0, 65, 66, 67, 68, 0, 0, 0, 0, 1, 2, 3, 4][i]? := by
  obtain ⟨hdr, h1, _, h2, h3, h4, h5, h6, h7, h8⟩ :=
    parse_header [0x34, 0x12, 0xFF, 0xFF, 1, 0, 5, 0, 65, 66, 67, 68, 0, 0, 0, 0, 1, 2, 3, 4]
      (by decide)
  refine ⟨by decide, hdr, h1, ?_, h8 3 _ (by decide) rfl rfl rfl⟩
  cases hdr
  simp only at h2 h3 h4 h5 h6 h7
  subst h2 h3 h4 h5 h6 h7
  rfl

/-- C15: `CRC16_BUYPASS` over the empty byte sequence (length 0) returns `0x0000`,
wherever the pointer stands. -/
theorem CRC16_BUYPASS_empty (mem : List Nat) (data : Nat) :
    CRC16_BUYPASS [] 0 0 = some 0x0000 ∧ CRC16_BUYPASS mem data 0 = some 0x0000 :=
  ⟨rfl, rfl⟩

/-- C16: single-bit error detection. For a list of bytes, flipping bit `k` (below 8)
of the byte at index `i` changes the value `CRC16_BUYPASS` returns over the whole list.
Consequently, when verify-only mode prints `OK.` for a file of at least 16 bytes, it
prints `Fail: crc do not match.` and returns -1 for the file with one bit flipped at
a byte index from 4 on. -/
theorem single_bit_error_detected (data : List Nat) (i k : Nat) (hb : IsBytes data)
    (hi : i < data.length) (hk : k < 8) :
    (∃ c c2, CRC16_BUYPASS data 0 data.length = some c ∧
      CRC16_BUYPASS (flipBit data i k) 0 (flipBit data i k).length = some c2 ∧ c2 ≠ c) ∧
    (16 ≤ data.length → 4 ≤ i →
      ∀ env env2 : Env, env.input = some data → env2.input = some (flipBit data i k) →
        env.mallocOk = true → env.freadFull = true →
        env2.mallocOk = true → env2.freadFull = true →
        ∀ r, main 2 env = some r → verdict r = [Msg.ok] →
          ∃ r2, main 2 env2 = some r2 ∧ r2.status = -1 ∧ verdict r2 = [Msg.failCrc]) := by
  constructor
  · exact ⟨crcFold 0 data, crcFold 0 (flipBit data i k), CRC16_BUYPASS_whole data,
      CRC16_BUYPASS_whole _, crcFold_flipBit_ne data k hk i 0 (by norm_num) hb hi⟩
  · intro h16 h4 env env2 hin hin2 hm hr hm2 hr2 r hrun hv
    obtain ⟨r1, hrun1, _, h1, _, _⟩ := main_verify_verdict env data hin h16 hm hr
    rw [hrun] at hrun1
    cases hrun1
    have hcrc : crcFold 0 (data.drop 4) = (hdrAt data).crc0 := by
      by_contra hne
      rw [(h1 hne).2] at hv
      cases hv
    have hlen2 : 16 ≤ (flipBit data i k).length := by rw [flipBit_length]; exact h16
    obtain ⟨r2, hrun2, _, h21, _, _⟩ :=
      main_verify_verdict env2 (flipBit data i k) hin2 hlen2 hm2 hr2
    refine ⟨r2, hrun2, h21 ?_⟩
    have hdrop : (flipBit data i k).drop 4 = flipBit (data.drop 4) (i - 4) k :=
      flipBit_drop data i k 4 h4
    have hcrc0 : (hdrAt (flipBit data i k)).crc0 = (hdrAt data).crc0 := by
      show _ + 256 * _ = _ + 256 * _
      rw [getD_congr data (flipBit data i k) 0 (List.getElem?_set_ne (by omega)),
        getD_congr data (flipBit data i k) 1 (List.getElem?_set_ne (by omega))]
    rw [hdrop, hcrc0, ← hcrc]
    exact crcFold_flipBit_ne (data.drop 4) k hk (i - 4) 0 (by norm_num)
      (fun x hx => hb x (List.mem_of_mem_drop hx)) (by rw [List.length_drop]; omega)

theorem single_bit_error_detected_witness :
    IsBytes [0, 0, 0x34, 0x12, 1, 0, 4, 0, 65, 66, 67, 68, 0, 0, 127, 246] ∧
    9 < [0, 0, 0x34, 0x12, 1, 0, 4, 0, 65, 66, 67, 68, 0, 0, 127, 246].length ∧ 0 < 8 ∧
    flipBit [0, 0, 0x34, 0x12, 1, 0, 4, 0, 65, 66, 67, 68, 0, 0, 127, 246] 9 0
      = [0, 0, 0x34, 0x12, 1, 0, 4, 0, 65, 67, 67, 68, 0, 0, 127, 246] ∧
    verdict ⟨0, [Msg.header ⟨0x0000, 0x1234, 1, 4, [65, 66, 67, 68], [0, 0, 127, 246]⟩,
        Msg.fileLength 4, Msg.oldCrc 0x0000, Msg.newCrc 0x0000, Msg.ok], none⟩ = [Msg.ok] ∧
    ∃ r2, main 2 ⟨some (flipBit [0, 0, 0x34, 0x12, 1, 0, 4, 0, 65, 66, 67, 68, 0, 0, 127, 246]
        9 0), true, true, true, true⟩ = some r2 ∧ r2.status = -1 ∧
      verdict r2 = [Msg.failCrc] :=
  ⟨by decide, by decide, by decide, by decide, by decide,
    (single_bit_error_detected [0, 0, 0x34, 0x12, 1, 0, 4, 0, 65, 66, 67, 68, 0, 0, 127, 246]
      9 0 (by decide) (by decide) (by decide)).2 (by decide) (by decide)
      ⟨some [0, 0, 0x34, 0x12, 1, 0, 4, 0, 65, 66, 67, 68, 0, 0, 127, 246], true, true, true, true⟩
      ⟨some (flipBit [0, 0, 0x34, 0x12, 1, 0, 4, 0, 65, 66, 67, 68, 0, 0, 127, 246] 9 0),
        true, true, true, true⟩ rfl rfl rfl rfl rfl rfl
      ⟨0, [Msg.header ⟨0x0000, 0x1234, 1, 4, [65, 66, 67, 68], [0, 0, 127, 246]⟩,
        Msg.fileLength 4, Msg.oldCrc 0x0000, Msg.newCrc 0x0000, Msg.ok], none⟩
      (by decide) (by decide)⟩

/-- C17: leading zeros are invisible to the checksum. For every byte list `m` and
every `k`, `CRC16_BUYPASS` over `k` zero bytes followed by `m` returns the value it
returns over `m` alone; hence a buffer with `k` zero bytes inserted at offset 4, the
start of the covered range, has the computed checksum of the buffer without them. -/
theorem leading_zeros_invisible (m : List Nat) (k : Nat) :
    (∃ c, CRC16_BUYPASS m 0 m.length = some c ∧
      CRC16_BUYPASS (List.replicate k 0 ++ m) 0 (List.replicate k 0 ++ m).length = some c) ∧
    (∀ buf : List Nat, 4 ≤ buf.length →
      ∃ c, CRC16_BUYPASS buf 4 (buf.length - 4) = some c ∧
        CRC16_BUYPASS (buf.take 4 ++ List.replicate k 0 ++ buf.drop 4) 4
          ((buf.take 4 ++ List.replicate k 0 ++ buf.drop 4).length - 4) = some c) := by
  constructor
  · refine ⟨crcFold 0 m, CRC16_BUYPASS_whole m, ?_⟩
    rw [CRC16_BUYPASS_whole, crcFold_replicate_zero]
  · intro buf h4
    refine ⟨crcFold 0 (buf.drop 4), CRC16_BUYPASS_from buf 4 h4, ?_⟩
    have hlen : (buf.take 4).length = 4 := by simp [h4]
    rw [CRC16_BUYPASS_from _ 4 (by simp [h4])]
    have hdrop : (buf.take 4 ++ List.replicate k 0 ++ buf.drop 4).drop 4
        = List.replicate k 0 ++ buf.drop 4 := by
      rw [List.append_assoc, List.drop_append_of_le_length (by omega),
        List.drop_eq_nil_of_le (by omega), List.nil_append]
    rw [hdrop, crcFold_replicate_zero]

theorem leading_zeros_invisible_witness :
    ∃ c, CRC16_BUYPASS [0x31, 0x32, 0x33] 0 3 = some c ∧
      CRC16_BUYPASS [0, 0, 0x31, 0x32, 0x33] 0 5 = some c ∧
      CRC16_BUYPASS [9, 9, 9, 9, 0x31, 0x32, 0x33] 4 3 = some c ∧
      CRC16_BUYPASS [9, 9, 9, 9, 0, 0, 0x31, 0x32, 0x33] 4 5 = some c := by
  obtain ⟨c, h1, h2⟩ := (leading_zeros_invisible [0x31, 0x32, 0x33] 2).1
  obtain ⟨c2, h3, h4⟩ :=
    (leading_zeros_invisible [0x31, 0x32, 0x33] 2).2 [9, 9, 9, 9, 0x31, 0x32, 0x33] (by decide)
  have e : c2 = c := by
    have h5 : CRC16_BUYPASS [9, 9, 9, 9, 0x31, 0x32, 0x33] 4 3
        = CRC16_BUYPASS [0x31, 0x32, 0x33] 0 3 := by decide
    have h3b : CRC16_BUYPASS [9, 9, 9, 9, 0x31, 0x32, 0x33] 4 3 = some c2 := h3
    have h1b : CRC16_BUYPASS [0x31, 0x32, 0x33] 0 3 = some c := h1
    rw [h5, h1b] at h3b
    exact (Option.some.inj h3b).symm
  subst e
  exact ⟨c2, h1, h2, h3, h4⟩

/-- C18: the shadow field is not checked. If two buffers of the same length, at least
16, hold the same bytes at every index other than 2 and 3, then the computed checksum,
the stored checksum (header field and printed old CRC) and, in verify-only mode, the
returned status and the verdict line are the same for both. Two 16-byte buffers show
what passes: one with shadow `0x1234` and stored checksum `0x0000`, one with shadow
`0x0000` and stored checksum `0xFFFF`; both print `OK.` and return 0. -/
theorem shadow_not_checked (buf buf2 : List Nat) (h : 16 ≤ buf.length)
    (hl : buf2.length = buf.length) (hsame : ∀ i, i ≠ 2 → i ≠ 3 → buf2[i]? = buf[i]?) :
    (∃ c, CRC16_BUYPASS buf 4 (buf.length - 4) = some c ∧
      CRC16_BUYPASS buf2 4 (buf2.length - 4) = some c) ∧
    (∃ s, load16 buf 0 = some s ∧ load16 buf2 0 = some s) ∧
    oldCrcOf buf2 = oldCrcOf buf ∧
    (∀ env env2 : Env, env.input = some buf → env2.input = some buf2 →
      env.mallocOk = true → env.freadFull = true →
      env2.mallocOk = true → env2.freadFull = true →
      ∃ r r2, main 2 env = some r ∧ main 2 env2 = some r2 ∧
        r2.status = r.status ∧ verdict r2 = verdict r) ∧
    (main 2 ⟨some [0, 0, 0x34, 0x12, 1, 0, 4, 0, 65, 66, 67, 68, 0, 0, 127, 246],
        true, true, true, true⟩ =
      some ⟨0, [Msg.header ⟨0x0000, 0x1234, 1, 4, [65, 66, 67, 68], [0, 0, 127, 246]⟩,
        Msg.fileLength 4, Msg.oldCrc 0x0000, Msg.newCrc 0x0000, Msg.ok], none⟩) ∧
    (main 2 ⟨some [255, 255, 0, 0, 1, 0, 4, 0, 65, 66, 67, 68, 0, 0, 149, 94],
        true, true, true, true⟩ =
      some ⟨0, [Msg.header ⟨0xFFFF, 0x0000, 1, 4, [65, 66, 67, 68], [0, 0, 149, 94]⟩,
        Msg.fileLength 4, Msg.oldCrc 0xFFFF, Msg.newCrc 0xFFFF, Msg.ok], none⟩) := by
  have h2 : 16 ≤ buf2.length := by omega
  have hdrop : buf2.drop 4 = buf.drop 4 :=
    drop_congr buf buf2 4 (fun i hi => hsame i (by omega) (by omega))
  have g0 := getD_congr buf buf2 0 (hsame 0 (by omega) (by omega))
  have g1 := getD_congr buf buf2 1 (hsame 1 (by omega) (by omega))
  have g6 := getD_congr buf buf2 6 (hsame 6 (by omega) (by omega))
  have g7 := getD_congr buf buf2 7 (hsame 7 (by omega) (by omega))
  have hcrc0 : (hdrAt buf2).crc0 = (hdrAt buf).crc0 := by
    show _ + 256 * _ = _ + 256 * _
    rw [g0, g1]
  have hlen : (hdrAt buf2).len = (hdrAt buf).len := by
    show _ + 256 * _ = _ + 256 * _
    rw [g6, g7]
  refine ⟨⟨crcFold 0 (buf.drop 4), CRC16_BUYPASS_from buf 4 (by omega), ?_⟩,
    ⟨_, load16_eq buf 0 (by omega), ?_⟩, ?_, ?_, by decide, by decide⟩
  · rw [CRC16_BUYPASS_from buf2 4 (by omega), hdrop]
  · rw [load16_eq buf2 0 (by omega), g0, g1]
  · rw [oldCrcOf_eq buf (by omega), oldCrcOf_eq buf2 (by omega), g0, g1]
  · intro env env2 hin hin2 hm hr hm2 hr2
    refine ⟨_, _, main_verify_eq env buf hin h hm hr, main_verify_eq env2 buf2 hin2 h2 hm2 hr2,
      ?_, ?_⟩
    · show Option.getD _ 0 = Option.getD _ 0
      rw [hdrop, hcrc0, hlen, hl]
    · rw [verdict_report_append, verdict_report_append, hdrop, hcrc0, hlen, hl]

theorem shadow_not_checked_witness :
    16 ≤ [0, 0, 0x34, 0x12, 1, 0, 4, 0, 65, 66, 67, 68, 0, 0, 127, 246].length ∧
    ∃ r r2,
      main 2 ⟨some [0, 0, 0x34, 0x12, 1, 0, 4, 0, 65, 66, 67, 68, 0, 0, 127, 246],
        true, true, true, true⟩ = some r ∧
      main 2 ⟨some [0, 0, 0xFF, 0xFF, 1, 0, 4, 0, 65, 66, 67, 68, 0, 0, 127, 246],
        true, true, true, true⟩ = some r2 ∧
      r2.status = r.status ∧ verdict r2 = verdict r :=
  ⟨by decide,
    (shadow_not_checked [0, 0, 0x34, 0x12, 1, 0, 4, 0, 65, 66, 67, 68, 0, 0, 127, 246]
      [0, 0, 0xFF, 0xFF, 1, 0, 4, 0, 65, 66, 67, 68, 0, 0, 127, 246] (by decide) (by decide)
      (by
        intro i h2 h3
        match i with
        | 0 => rfl
        | 1 => rfl
        | 2 => exact absurd rfl h2
        | 3 => exact absurd rfl h3
        | n + 4 => rfl)).2.2.2.1
      ⟨some [0, 0, 0x34, 0x12, 1, 0, 4, 0, 65, 66, 67, 68, 0, 0, 127, 246], true, true, true, true⟩
      ⟨some [0, 0, 0xFF, 0xFF, 1, 0, 4, 0, 65, 66, 67, 68, 0, 0, 127, 246], true, true, true, true⟩
      rfl rfl rfl rfl rfl rfl⟩

/-- C19: the declared length is a 16-bit field. For a file of bytes with at least
262144 of them (`len / 4 >= 65536`), the declared length is below 65536, the length
check prints `Warning: File size and header len do not match.` (not the "smaller"
warning and not nothing), and verify-only mode returns -1 with a failure verdict,
never `OK.`, whatever the bytes are. -/
theorem large_file_never_valid (file : List Nat) (hb : IsBytes file)
    (h : 262144 ≤ file.length) :
    ∃ hdr, imgHdr file = some hdr ∧ hdr.len < 65536 ∧
      lengthWarning hdr.len file.length = [Msg.warnMismatch] ∧
      ∀ env : Env, env.input = some file → env.mallocOk = true → env.freadFull = true →
        ∃ r, main 2 env = some r ∧ r.status = -1 ∧ verdict r ≠ [Msg.ok] ∧
          (verdict r = [Msg.failCrc] ∨ verdict r = [Msg.failLen]) := by
  have h16 : 16 ≤ file.length := by omega
  have h6 := getD_lt_of_isBytes file hb 6
  have h7 := getD_lt_of_isBytes file hb 7
  have hlen : (hdrAt file).len < 65536 := by
    show file.getD 6 0 + 256 * file.getD 7 0 < 65536
    omega
  have hne : file.length / 4 ≠ (hdrAt file).len := by omega
  refine ⟨hdrAt file, imgHdr_eq file h16, hlen,
    (lengthWarning_mismatch_iff _ _).2 (by omega), ?_⟩
  intro env hin hm hr
  obtain ⟨r, hrun, _, h1, h2, _⟩ := main_verify_verdict env file hin h16 hm hr
  refine ⟨r, hrun, ?_⟩
  by_cases hc : crcFold 0 (file.drop 4) = (hdrAt file).crc0
  · obtain ⟨hs, hv⟩ := h2 hc hne
    exact ⟨hs, by rw [hv]; simp, Or.inr hv⟩
  · obtain ⟨hs, hv⟩ := h1 hc
    exact ⟨hs, by rw [hv]; simp, Or.inl hv⟩

theorem large_file_never_valid_witness :
    IsBytes (List.replicate 262144 0) ∧ 262144 ≤ (List.replicate 262144 0).length ∧
    ∃ hdr, imgHdr (List.replicate 262144 0) = some hdr ∧ hdr.len < 65536 ∧
      lengthWarning hdr.len (List.replicate 262144 0).length = [Msg.warnMismatch] ∧
      ∀ env : Env, env.input = some (List.replicate 262144 0) → env.mallocOk = true →
        env.freadFull = true →
        ∃ r, main 2 env = some r ∧ r.status = -1 ∧ verdict r ≠ [Msg.ok] ∧
          (verdict r = [Msg.failCrc] ∨ verdict r = [Msg.failLen]) :=
  ⟨fun b hmem => by rw [List.eq_of_mem_replicate hmem]; norm_num,
    by rw [List.length_replicate],
    large_file_never_valid (List.replicate 262144 0)
      (fun b hmem => by rw [List.eq_of_mem_replicate hmem]; norm_num)
      (by rw [List.length_replicate])⟩

/-- C20: bounds safety under the size precondition. For a buffer of `len >= 16` bytes:
the covered length `len - 4` does not underflow and is at least 12; the checksum call
`CRC16_BUYPASS(buf+4, len-4)` stays inside the buffer, its result is fixed by the bytes
at indices 4 to `len - 1` alone, and each of these indices is read (a memory lacking
one of them makes the call an out-of-bounds access); the header overlay is read inside
the buffer, is fixed by the bytes at indices 0 to 15 alone, each of which is read; the
patch stores inside the buffer, keeps the length and every byte from index 2 on, and
does store at indices 0 and 1; and every run of `main` on the buffer returns, without
an access outside it. -/
theorem bounds_safety (buf : List Nat) (h : 16 ≤ buf.length) :
    (12 ≤ buf.length - 4 ∧ ((buf.length - 4 : Nat) : Int) = (buf.length : Int) - 4) ∧
    (∃ c, CRC16_BUYPASS buf 4 (buf.length - 4) = some c ∧
      (∀ mem2 : List Nat, (∀ p, 4 ≤ p → p < buf.length → mem2[p]? = buf[p]?) →
        CRC16_BUYPASS mem2 4 (buf.length - 4) = some c) ∧
      (∀ (mem2 : List Nat) (p : Nat), 4 ≤ p → p < buf.length → mem2[p]? = none →
        CRC16_BUYPASS mem2 4 (buf.length - 4) = none)) ∧
    (∃ hdr, imgHdr buf = some hdr ∧
      (∀ mem2 : List Nat, (∀ j, j < 16 → mem2[j]? = buf[j]?) → imgHdr mem2 = some hdr) ∧
      (∀ (mem2 : List Nat) (j : Nat), j < 16 → mem2[j]? = none → imgHdr mem2 = none)) ∧
    (∀ c : Nat, ∃ out, patch buf c = some out ∧ out.length = buf.length ∧
      ∀ j, 2 ≤ j → out[j]? = buf[j]?) ∧
    (∀ (mem2 : List Nat) (c j : Nat), j < 2 → mem2[j]? = none → patch mem2 c = none) ∧
    (∀ (argc : Nat) (env : Env), env.input = some buf → ∃ r, main argc env = some r) := by
  refine ⟨⟨by omega, by omega⟩, ⟨crcFold 0 (buf.drop 4), CRC16_BUYPASS_from buf 4 (by omega),
    ?_, ?_⟩, ⟨hdrAt buf, imgHdr_eq buf h, ?_, ?_⟩, ?_, ?_, fun argc env _ => main_returns argc env⟩
  · intro mem2 hsame
    rw [← CRC16_BUYPASS_from buf 4 (by omega)]
    exact crcLoop_congr buf mem2 (buf.length - 4) 4 0
      (fun p h1 h2 => hsame p h1 (by omega))
  · intro mem2 p h1 h2 hnone
    exact crcLoop_none mem2 (buf.length - 4) 4 0 ⟨p, h1, by omega, hnone⟩
  · intro mem2 hsame
    rw [imgHdr_congr buf mem2 hsame, imgHdr_eq buf h]
  · intro mem2 j hj hnone
    have hlen : mem2.length ≤ j := by
      by_contra hlt
      rw [List.getElem?_eq_getElem (by omega)] at hnone
      cases hnone
    exact imgHdr_none mem2 (by omega)
  · intro c
    refine ⟨_, patch_eq buf c (by omega), by simp, ?_⟩
    intro j hj
    rw [List.getElem?_set_ne (by omega), List.getElem?_set_ne (by omega)]
  · intro mem2 c j hj hnone
    have hlen : mem2.length ≤ j := by
      by_contra hlt
      rw [List.getElem?_eq_getElem (by omega)] at hnone
      cases hnone
    exact patch_none mem2 c (by omega)

theorem bounds_safety_witness :
    16 ≤ (List.replicate 16 0).length ∧
    (12 ≤ (List.replicate 16 0).length - 4 ∧
      (((List.replicate 16 0).length - 4 : Nat) : Int)
        = ((List.replicate 16 0).length : Int) - 4) ∧
    (∃ c, CRC16_BUYPASS (List.replicate 16 0) 4 ((List.replicate 16 0).length - 4) = some c) ∧
    (∃ hdr, imgHdr (List.replicate 16 0) = some hdr) ∧
    (∃ out, patch (List.replicate 16 0) 0x1234 = some out ∧
      out.length = (List.replicate 16 0).length) ∧
    (∃ r, main 3 ⟨some (List.replicate 16 0), true, true, true, true⟩ = some r) :=
  ⟨by decide, (bounds_safety (List.replicate 16 0) (by decide)).1,
    (bounds_safety (List.replicate 16 0) (by decide)).2.1.imp fun _ hc => hc.1,
    (bounds_safety (List.replicate 16 0) (by decide)).2.2.1.imp fun _ hc => hc.1,
    ((bounds_safety (List.replicate 16 0) (by decide)).2.2.2.1 0x1234).imp
      fun _ hc => ⟨hc.1, hc.2.1⟩,
    (bounds_safety (List.replicate 16 0) (by decide)).2.2.2.2.2 3
      ⟨some (List.replicate 16 0), true, true, true, true⟩ rfl⟩

end Crc16
